import Mathlib

/-!
The fragment store and the synthesis loop of jig.

A shallow embedding of `src/pkg/generate-source.go` and `src/main.go`.

Go maps (`map[string]T`) are total functions `String → Option T`; a Go method
with a pointer receiver that mutates the package is a function returning the
new package; a Go `error` result is `Option GoError` (`none` is `nil`).
Functions of the Go standard library, of `golang.org/x/tools` and methods of
the repository whose bodies are not part of the sources at hand are fields of
an environment record, so every theorem holds for all of their behaviours.
-/

namespace Jig

/-! ## Data model -/

/-- A Go `error` value, identified by its message. -/
abbrev GoError := String

/-- A Go `map[string]V`. -/
abbrev GoMap (V : Type) := String → Option V

/-- The empty map. -/
def GoMap.empty {V : Type} : GoMap V := fun _ => none

/-- The assignment `m[k] = v`. -/
def GoMap.set {V : Type} (m : GoMap V) (k : String) (v : V) : GoMap V :=
  fun k' => if k' = k then some v else m k'

/-- A map literal `map[string]V{k1: v1, ...}`. -/
def GoMap.ofList {V : Type} : List (String × V) → GoMap V
  | [] => GoMap.empty
  | (k, v) :: rest => fun k' => if k' = k then some v else GoMap.ofList rest k'

/-- The type `ast.Comment`: the field the code reads. -/
structure Comment where
  Text : String
deriving DecidableEq, Repr

/-- The type `ast.CommentGroup`. -/
structure CommentGroup where
  List : List Comment
deriving DecidableEq, Repr

/-- The type `ast.File`: the comments, which the code reads, the name the file
is registered under in the position table, and the rest of the syntax tree
kept as text. -/
structure File where
  Pos : String
  Comments : List CommentGroup
  Decls : String
deriving DecidableEq, Repr

/-- A `*template.Template`: an object with its `Execute` method, which gives
the text written to the writer for the data passed (the error result of
`Execute` is dropped by the only caller). -/
structure Template where
  Execute : GoMap String → String

/-- The type `Package`, with the fields the code uses. -/
structure Package where
  Dir : String
  Name : String
  Nodoc : Bool
  filename : Template
  fileset : GoMap File
  generated : GoMap String

/-- What the code calls and is not part of the sources at hand. -/
structure Env where
  /-- the constant `jigName`, the marker keyword -/
  jigName : String
  /-- the call `reCommentPragma.FindStringSubmatch(text)`; `nil` is `[]` -/
  FindStringSubmatch : String → List String
  /-- the function `strings.Title` -/
  Title : String → String
  /-- the function `strings.ToLower` -/
  ToLower : String → String
  /-- the function `filepath.Join` of two elements -/
  Join : String → String → String
  /-- the method `p.Filepath(file)` -/
  Filepath : File → String
  /-- the method `p.WriteFile(w, file)`: the text written to `w`, or the error -/
  WriteFile : Package → File → Except GoError String
  /-- the call `imports.Process("", src, nil)` -/
  Process : String → Except GoError String
  /-- the method `p.Config.ParseFile(path, src)` -/
  ParseFile : String → String → Except GoError File

/-- The function `strings.HasPrefix`. -/
def HasPrefix (s pre : String) : Bool := pre.data.isPrefixOf s.data

/-! ## `generate-source.go` -/

/-- The body of the inner loop of `ScanForGeneratedSources`, for one comment. -/
def scanComment (env : Env) (file : File) (p : Package) (comment : Comment) : Package :=
  if HasPrefix comment.Text env.jigName then
    let kvmatch := env.FindStringSubmatch comment.Text
    if kvmatch.length = 3 then
      if kvmatch.getD 1 "" = env.jigName then
        let path := env.Filepath file
        { p with
          generated := p.generated.set (kvmatch.getD 2 "") path
          fileset := p.fileset.set path file }
      else p
    else p
  else p

/-- The method `ScanForGeneratedSources`. -/
def ScanForGeneratedSources (env : Env) (p : Package) (file : File) : Package :=
  file.Comments.foldl (fun p cgroup => cgroup.List.foldl (scanComment env file) p) p

/-- The method `HasGeneratedSource`. -/
def HasGeneratedSource (p : Package) (name : String) : Bool :=
  (p.generated name).isSome

/-- Modelled from the spec: the method `AddFile`, whose body is not part of the
sources at hand; it replaces the entry of the file's path in the package's
fileset (§4.4 step 5). -/
def AddFile (env : Env) (p : Package) (file : File) : Package :=
  { p with fileset := p.fileset.set (env.Filepath file) file }

/-- The data map built by `GenerateSourceAppendFile` for the filename template. -/
def filenameData (env : Env) (packageName name : String) : GoMap String :=
  GoMap.ofList
    [ ("Package", env.Title packageName),
      ("package", env.ToLower packageName),
      ("Name", env.Title name),
      ("name", env.ToLower name) ]

/-- The header written by `GenerateSourceAppendFile` to a fresh buffer. -/
def header (pkgName : String) : String :=
  "// Code generated by jig; DO NOT EDIT.\n\n//go:generate jig --regen\n\npackage " ++ pkgName ++ "\n\n"

/-- The method `GenerateSourceAppendFile`: the error returned and the package
after the call. -/
def GenerateSourceAppendFile (env : Env) (p : Package) (filename : Template)
    (packageName name source : String) : Option GoError × Package :=
  let sourcebuf := ""
  let data := filenameData env packageName name
  let filenamebuf := filename.Execute data
  let path := env.Join p.Dir filenamebuf
  let written : Except GoError String :=
    match p.fileset path with
    | some file =>
      match env.WriteFile p file with
      | .error err => .error err
      | .ok text => .ok (sourcebuf ++ text)
    | none => .ok (sourcebuf ++ header p.Name)
  match written with
  | .error err => (some err, p)
  | .ok sourcebuf =>
    -- Append the source fragment to the source.
    let sourcebuf := sourcebuf ++ ("\n" ++ env.jigName ++ " " ++ name ++ "\n\n" ++ source)
    -- Rewrite imports clause for the source.
    match env.Process sourcebuf with
    | .error err => (some err, p)
    | .ok fixedsource =>
      match env.ParseFile path fixedsource with
      | .error err => (some err, p)
      | .ok file =>
        -- Add file to the fileset, idempotent
        let p := AddFile env p file
        -- Remember this file as the most current one.
        (none, { p with generated := p.generated.set name path })

/-- The method `GenerateSource`. -/
def GenerateSource (env : Env) (p : Package) (packageName name source : String) :
    Option GoError × Package :=
  GenerateSourceAppendFile env p p.filename packageName name source

/-! ## Notions used to state the properties -/

/-- The destination path `GenerateSourceAppendFile` resolves. -/
def destPath (env : Env) (p : Package) (filename : Template) (packageName name : String) : String :=
  env.Join p.Dir (filename.Execute (filenameData env packageName name))

/-- The text `GenerateSourceAppendFile` starts the buffer with. -/
def bufferStart (env : Env) (p : Package) (path : String) : Except GoError String :=
  match p.fileset path with
  | some file => env.WriteFile p file
  | none => .ok (header p.Name)

/-- The name a comment records: the comment starts with the marker keyword and the pattern
matches it with the marker keyword as key (the three tests of `ScanForGeneratedSources`). -/
def markerName (env : Env) (comment : Comment) : Option String :=
  if HasPrefix comment.Text env.jigName ∧ (env.FindStringSubmatch comment.Text).length = 3 ∧
      (env.FindStringSubmatch comment.Text).getD 1 "" = env.jigName then
    some ((env.FindStringSubmatch comment.Text).getD 2 "")
  else none

/-- Every fragment is backed by a buffered file: every path in the range of the
fragment store is a key of the fileset. -/
def Backed (p : Package) : Prop :=
  ∀ n path, p.generated n = some path → (p.fileset path).isSome = true

/-! ## `main.go`

The operations `jigMain` calls on the package and on the specializer are not
part of the sources at hand: they are the fields of `Ops`, functions on a
machine state `σ` that holds the package, the specializer and the disk. A run
keeps, next to the machine state, the lines printed to standard output and to
standard error and the log of the calls made with their results. The loop of
`jigMain` takes fuel: `none` is a loop that has not ended within the fuel. -/

/-- The command line: the flags and the first argument (empty when absent). -/
structure Flags where
  clean : Bool
  forceregen : Bool
  missing : Bool
  verbose : Bool
  nodoc : Bool
  dir : String

/-- A call of an operation, with its results. -/
inductive Call where
  | ParseDir (err : Option GoError)
  | RemoveGeneratedSources (messages : List String) (err : Option GoError)
  | Check (errors : List GoError) (err : Option GoError)
  | LoadGeneratePragmas (messages : List String)
  | LoadGenerics (messages : List String) (err : Option GoError)
  | GenerateCodeForType (sig : String) (messages : List String) (err : Option GoError)
  | WriteGeneratedSources (messages : List String) (err : Option GoError)
deriving DecidableEq, Repr

/-- The operations `jigMain` calls. -/
structure Ops (σ : Type) where
  /-- the call `pkg.NewPackage(dir)` -/
  NewPackage : String → σ → σ
  /-- the assignment `pkg.Nodoc = nodoc` -/
  SetNodoc : Bool → σ → σ
  /-- the call `pkg.ParseDir()` -/
  ParseDir : σ → Option GoError × σ
  /-- the call `pkg.RemoveGeneratedSources()` -/
  RemoveGeneratedSources : σ → (List String × Option GoError) × σ
  /-- the call `pkg.Check()` -/
  Check : σ → (List GoError × Option GoError) × σ
  /-- the call `pkg.LoadGeneratePragmas()` -/
  LoadGeneratePragmas : σ → List String × σ
  /-- the call `templ.NewSpecializer()` -/
  NewSpecializer : σ → σ
  /-- the call `pkg.LoadGenerics(tplr)` -/
  LoadGenerics : σ → (List String × Option GoError) × σ
  /-- the call `pkg.SuggestTypesToGenerate(errors)` -/
  SuggestTypesToGenerate : σ → List GoError → List String
  /-- the call `tplr.GenerateCodeForType(pkg, sig)` -/
  GenerateCodeForType : String → σ → (List String × Option GoError) × σ
  /-- the call `pkg.WriteGeneratedSources()` -/
  WriteGeneratedSources : σ → (List String × Option GoError) × σ

/-- A run of `jigMain` so far. -/
structure Run (σ : Type) where
  state : σ
  stdout : List String
  stderr : List String
  calls : List Call

/-- The function `printedError`: whether an error was printed, and the run after. -/
def printedError {σ : Type} (verbose : Bool) (messages : List String) (err : Option GoError)
    (r : Run σ) : Bool × Run σ :=
  let r := if verbose then { r with stdout := r.stdout ++ messages } else r
  match err with
  | none => (false, r)
  | some e => (true, { r with stderr := r.stderr ++ [e] })

/-- The loop of `jigMain` over the signatures to generate: the exit code when a
call failed, the flag `generating` and the run after. -/
def generateAll {σ : Type} (ops : Ops σ) (verbose : Bool) :
    List String → Bool → Run σ → Option Int × Bool × Run σ
  | [], generating, r => (none, generating, r)
  | sig :: sigs, generating, r =>
    let res := ops.GenerateCodeForType sig r.state
    let r := { r with
      state := res.2
      calls := r.calls ++ [Call.GenerateCodeForType sig res.1.1 res.1.2] }
    let pr := printedError verbose res.1.1 res.1.2 r
    if pr.1 then (some 1, generating, pr.2)
    else generateAll ops verbose sigs (generating || decide (res.1.1.length > 0)) pr.2

/-- How one pass through the body of the synthesis loop ends. -/
inductive Pass (σ : Type) where
  /-- a `return` with the exit code -/
  | returned (code : Int) (r : Run σ)
  /-- the `break` -/
  | broke (errors : List GoError) (r : Run σ)
  /-- the end of the body, with the flag `generating` -/
  | completed (generating : Bool) (errors : List GoError) (r : Run σ)

/-- The body of the synthesis loop of `jigMain`; `tplr` tells whether the
variable `tplr` is not nil. -/
def loopBody {σ : Type} (ops : Ops σ) (verbose : Bool) (tplr : Bool) (r : Run σ) : Pass σ :=
  -- generating = false
  let res := ops.Check r.state
  let errors := res.1.1
  let r := { r with state := res.2, calls := r.calls ++ [Call.Check res.1.1 res.1.2] }
  let pr := printedError verbose [] res.1.2 r
  if pr.1 then Pass.returned 1 pr.2
  else if errors.length = 0 then Pass.broke errors pr.2
  else
    let r := pr.2
    let res := ops.LoadGeneratePragmas r.state
    let r := { r with state := res.2, calls := r.calls ++ [Call.LoadGeneratePragmas res.1] }
    let pr := printedError verbose res.1 none r
    if pr.1 then Pass.returned 1 pr.2
    else
      let r := pr.2
      let loaded : Bool × Run σ :=
        if tplr then (false, r)
        else
          let res := ops.LoadGenerics (ops.NewSpecializer r.state)
          let r := { r with state := res.2, calls := r.calls ++ [Call.LoadGenerics res.1.1 res.1.2] }
          printedError verbose res.1.1 res.1.2 r
      if loaded.1 then Pass.returned 1 loaded.2
      else
        let r := loaded.2
        let gen := generateAll ops verbose (ops.SuggestTypesToGenerate r.state errors) false r
        match gen.1 with
        | some code => Pass.returned code gen.2.2
        | none => Pass.completed gen.2.1 errors gen.2.2

/-- How the synthesis loop ends. -/
inductive LoopEnd (σ : Type) where
  /-- a `return` inside the loop, with the exit code -/
  | returned (code : Int) (r : Run σ)
  /-- the loop was left, with the value of `errors` -/
  | left (errors : List GoError) (r : Run σ)

/-- The synthesis loop of `jigMain`, entered with `generating` true. -/
def synthesisLoop {σ : Type} (ops : Ops σ) (verbose : Bool) :
    Nat → Bool → Run σ → Option (LoopEnd σ)
  | 0, _, _ => none
  | fuel + 1, tplr, r =>
    match loopBody ops verbose tplr r with
    | Pass.returned code r => some (LoopEnd.returned code r)
    | Pass.broke errors r => some (LoopEnd.left errors r)
    | Pass.completed generating errors r =>
      if generating then synthesisLoop ops verbose fuel true r
      else some (LoopEnd.left errors r)

/-- The part of `jigMain` before the synthesis loop: the exit code when it
returns, and the run after. -/
def prepare {σ : Type} (ops : Ops σ) (flags : Flags) (s0 : σ) : Option Int × Run σ :=
  let missing := if flags.forceregen && flags.missing then false else flags.missing
  -- If no dir has been given, use current directory.
  let dir := if flags.dir = "" then "." else flags.dir
  -- Create a package that will read and write files from the given dir.
  let r : Run σ :=
    { state := ops.SetNodoc flags.nodoc (ops.NewPackage dir s0), stdout := [], stderr := [], calls := [] }
  -- Parse all files currently in the package directory.
  let res := ops.ParseDir r.state
  let r := { r with state := res.2, calls := r.calls ++ [Call.ParseDir res.1] }
  let pr := printedError flags.verbose [] res.1 r
  if pr.1 then (some 1, pr.2)
  else
    let r := pr.2
    if flags.clean || !missing then
      let res := ops.RemoveGeneratedSources r.state
      let r := { r with
        state := res.2
        calls := r.calls ++ [Call.RemoveGeneratedSources res.1.1 res.1.2] }
      let pr := printedError flags.verbose res.1.1 res.1.2 r
      if pr.1 then (some 1, pr.2)
      else if flags.clean then (some 0, pr.2)
      else (none, pr.2)
    else (none, r)

/-- The function `jigMain`: the exit code and the run, or `none` when the
synthesis loop has not ended within the fuel. -/
def jigMain {σ : Type} (ops : Ops σ) (flags : Flags) (fuel : Nat) (s0 : σ) : Option (Int × Run σ) :=
  let pre := prepare ops flags s0
  match pre.1 with
  | some code => some (code, pre.2)
  | none =>
    let write := true
    -- As long as files are being generated we are still fixing code.
    let loop : Option (LoopEnd σ) :=
      if write then synthesisLoop ops flags.verbose fuel false pre.2
      else some (LoopEnd.left [] pre.2)
    match loop with
    | none => none
    | some (LoopEnd.returned code r) => some (code, r)
    | some (LoopEnd.left errors r) =>
      let flushed : Bool × Run σ :=
        if write then
          -- Write the generated source code file(s)
          let res := ops.WriteGeneratedSources r.state
          let r := { r with
            state := res.2
            calls := r.calls ++ [Call.WriteGeneratedSources res.1.1 res.1.2] }
          printedError flags.verbose res.1.1 res.1.2 r
        else (false, r)
      if flushed.1 then some (1, flushed.2)
      else
        -- Print unfixable errors from the last time Check() was called.
        let r := { flushed.2 with stdout := flushed.2.stdout ++ errors }
        if errors.length > 0 then some (1, r) else some (0, r)

/-! ## The log of a run -/

/-- The error a call returned. -/
def Call.err : Call → Option GoError
  | Call.ParseDir err => err
  | Call.RemoveGeneratedSources _ err => err
  | Call.Check _ err => err
  | Call.LoadGeneratePragmas _ => none
  | Call.LoadGenerics _ err => err
  | Call.GenerateCodeForType _ _ err => err
  | Call.WriteGeneratedSources _ err => err

/-- The messages a call returned. -/
def Call.messages : Call → List String
  | Call.ParseDir _ => []
  | Call.RemoveGeneratedSources messages _ => messages
  | Call.Check _ _ => []
  | Call.LoadGeneratePragmas messages => messages
  | Call.LoadGenerics messages _ => messages
  | Call.GenerateCodeForType _ messages _ => messages
  | Call.WriteGeneratedSources messages _ => messages

/-- Whether a call is the typecheck. -/
def Call.isCheck : Call → Bool
  | Call.Check _ _ => true
  | _ => false

/-- Whether a call is one the synthesis loop makes. -/
def Call.inLoop : Call → Bool
  | Call.Check _ _ => true
  | Call.LoadGeneratePragmas _ => true
  | Call.LoadGenerics _ _ => true
  | Call.GenerateCodeForType _ _ _ => true
  | _ => false

/-- The diagnostics of the last typecheck of a log. -/
def lastCheck : List Call → Option (List GoError)
  | [] => none
  | c :: cs =>
    match lastCheck cs with
    | some errors => some errors
    | none =>
      match c with
      | Call.Check errors _ => some errors
      | _ => none

/-- The run a pass through the body of the loop ended with. -/
def Pass.run {σ : Type} : Pass σ → Run σ
  | Pass.returned _ r => r
  | Pass.broke _ r => r
  | Pass.completed _ _ r => r

/-- The run a loop ended with. -/
def LoopEnd.run {σ : Type} : LoopEnd σ → Run σ
  | LoopEnd.returned _ r => r
  | LoopEnd.left _ r => r

/-- The machine state after the package was created and the directory parsed. -/
def parsedState {σ : Type} (ops : Ops σ) (flags : Flags) (s0 : σ) : σ :=
  (ops.ParseDir (ops.SetNodoc flags.nodoc
    (ops.NewPackage (if flags.dir = "" then "." else flags.dir) s0))).2

/-- The operations other than `RemoveGeneratedSources` and
`WriteGeneratedSources` leave the files on disk as they are. -/
def DiskUntouched {σ D : Type} (ops : Ops σ) (disk : σ → D) : Prop :=
  (∀ dir s, disk (ops.NewPackage dir s) = disk s) ∧
  (∀ b s, disk (ops.SetNodoc b s) = disk s) ∧
  (∀ s, disk (ops.ParseDir s).2 = disk s) ∧
  (∀ s, disk (ops.Check s).2 = disk s) ∧
  (∀ s, disk (ops.LoadGeneratePragmas s).2 = disk s) ∧
  (∀ s, disk (ops.NewSpecializer s) = disk s) ∧
  (∀ s, disk (ops.LoadGenerics s).2 = disk s) ∧
  (∀ sig s, disk (ops.GenerateCodeForType sig s).2 = disk s)

/-! ## The specializer and the machine state -/

/-- The machine state of the runs on a package: the package, the fragment
names whose regeneration a directive of the client code forces (§4.1), and
the files on disk, a path mapped to the text of the file. -/
structure World where
  pkg : Package
  forced : String → Bool
  disk : GoMap String

/-- Modelled from the spec: the template library of the Specializer (§3, §4.2),
whose code is not part of the sources at hand: the name of the fragment a
signature renders to, and the lookup of the template with the substitution of
the type arguments, which gives the package name and the text of the fragment,
or nothing when no template is known for the signature. -/
structure Specializer where
  fragmentName : String → String
  instantiate : String → Option (String × String)

/-- Modelled from the spec: the operation `GenerateCodeForType` of the
Specializer (§4.3), whose code is not part of the sources at hand. A
signature whose fragment the fragment store has is skipped, with no message
and no error, unless a directive forces its regeneration (§4.1, §8); a
signature no template is known for gives no message and no error to the loop,
so its diagnostic stays for the final list (§4.3, §8); otherwise the rendered
fragment is handed to `GenerateSource`, whose error is returned, and a call
that merged the fragment returns a message. -/
def GenerateCodeForType (env : Env) (tplr : Specializer) (sig : String) (w : World) :
    (List String × Option GoError) × World :=
  let name := tplr.fragmentName sig
  if HasGeneratedSource w.pkg name && !w.forced name then (([], none), w)
  else
    match tplr.instantiate sig with
    | none => (([], none), w)
    | some (packageName, source) =>
      let res := GenerateSource env w.pkg packageName name source
      match res.1 with
      | some err => (([], some err), { w with pkg := res.2 })
      | none => ((["generating " ++ name], none), { w with pkg := res.2 })

/-- Whether a file of the fileset holds a fragment marker. -/
def holdsFragment (env : Env) (file : File) : Bool :=
  file.Comments.any (fun g => g.List.any (fun c => (markerName env c).isSome))

/-- Modelled from the spec: the operation `RemoveGeneratedSources`, whose code
is not part of the sources at hand: it removes the files that hold generated
fragments, from the disk and from the package, and empties the fragment store
(`main.go`: "Clean the output directory by removing all generated source code
file(s)"). -/
def RemoveGeneratedSources (env : Env) (w : World) : (List String × Option GoError) × World :=
  let generatedFile : String → Bool := fun path =>
    match w.pkg.fileset path with
    | some file => holdsFragment env file
    | none => false
  (([], none),
    { w with
      pkg := { w.pkg with
        fileset := fun path => if generatedFile path then none else w.pkg.fileset path
        generated := GoMap.empty }
      disk := fun path => if generatedFile path then none else w.disk path })

/-- Modelled from the spec: the operation `WriteGeneratedSources`, whose code is
not part of the sources at hand: it writes every buffered file of the fileset
to the disk in one pass (§4.5, after loop exit), `paths` being the keys of the
fileset in the order of the pass; the first file that cannot be written ends
the pass with its error. -/
def WriteGeneratedSources (env : Env) (paths : List String) (w : World) :
    (List String × Option GoError) × World :=
  paths.foldl
    (fun acc path =>
      match acc.1.2 with
      | some _ => acc
      | none =>
        match acc.2.pkg.fileset path with
        | none => acc
        | some file =>
          match env.WriteFile acc.2.pkg file with
          | .error err => ((acc.1.1, some err), acc.2)
          | .ok text => (acc.1, { acc.2 with disk := acc.2.disk.set path text }))
    (([], none), w)

/-- The operations of the loop other than `GenerateCodeForType` keep every
name of the fragment store (§3: entries are added, never removed, during a
run). -/
def StoreKept (ops : Ops World) : Prop :=
  (∀ w n, HasGeneratedSource w.pkg n = true → HasGeneratedSource (ops.Check w).2.pkg n = true) ∧
  (∀ w n, HasGeneratedSource w.pkg n = true →
    HasGeneratedSource (ops.LoadGeneratePragmas w).2.pkg n = true) ∧
  (∀ w n, HasGeneratedSource w.pkg n = true →
    HasGeneratedSource (ops.NewSpecializer w).pkg n = true) ∧
  (∀ w n, HasGeneratedSource w.pkg n = true →
    HasGeneratedSource (ops.LoadGenerics w).2.pkg n = true)

/-- A property of the machine state that every operation of the loop keeps:
it holds of every state a run reaches from a state it holds of. -/
def Invariant (ops : Ops World) (inv : World → Prop) : Prop :=
  (∀ w, inv w → inv (ops.Check w).2) ∧
  (∀ w, inv w → inv (ops.LoadGeneratePragmas w).2) ∧
  (∀ w, inv w → inv (ops.NewSpecializer w)) ∧
  (∀ w, inv w → inv (ops.LoadGenerics w).2) ∧
  (∀ sig w, inv w → inv (ops.GenerateCodeForType sig w).2)

/-- The names of `names` the fragment store does not have. -/
def missingNames (names : List String) (w : World) : Finset String :=
  names.toFinset.filter (fun n => HasGeneratedSource w.pkg n = false)

/-- The number of typechecks in a log: the number of passes through the loop. -/
def checks (calls : List Call) : Nat := calls.countP Call.isCheck

/-- Whether a pass reached the end of the body with `generating` set. -/
def Pass.goesOn {σ : Type} : Pass σ → Bool
  | Pass.completed generating _ _ => generating
  | _ => false

/-! ## Notions used in the proofs -/

/-- The empty run on a machine state. -/
def Run.init {σ : Type} (s : σ) : Run σ := { state := s, stdout := [], stderr := [], calls := [] }

/-- The log, the output and the error output of `r2` extend those of `r` by the
calls `ext`. -/
def Extends {σ : Type} (v : Bool) (r r2 : Run σ) (ext : List Call) : Prop :=
  r2.calls = r.calls ++ ext ∧
  r2.stdout = r.stdout ++ (if v then ext.flatMap Call.messages else []) ∧
  r2.stderr = r.stderr ++ ext.filterMap Call.err

/-- A relation on machine states that every operation of the loop respects. -/
structure LoopFrame {σ : Type} (ops : Ops σ) (R : σ → σ → Prop) : Prop where
  refl : ∀ s, R s s
  trans : ∀ a b c, R a b → R b c → R a c
  check : ∀ s, R s (ops.Check s).2
  pragmas : ∀ s, R s (ops.LoadGeneratePragmas s).2
  newSpecializer : ∀ s, R s (ops.NewSpecializer s)
  loadGenerics : ∀ s, R s (ops.LoadGenerics s).2
  generate : ∀ sig s, R s (ops.GenerateCodeForType sig s).2

/-- The preorder of the termination argument: every name of the fragment store
is kept. -/
def Keeps (w w2 : World) : Prop :=
  ∀ n, HasGeneratedSource w.pkg n = true → HasGeneratedSource w2.pkg n = true

/-! ## A concrete environment

An instance of the environment on ASCII text, used to evaluate the
definitions on concrete inputs. -/

/-- The function `isSeparator` of package `strings`, on ASCII. -/
def isSeparator (c : Char) : Bool := !(c.isAlphanum || c == '_')

/-- The mapping of `strings.Title`: a letter that begins a word is upper-cased. -/
def titleChars : Bool → List Char → List Char
  | _, [] => []
  | prevSep, c :: cs => (if prevSep then c.toUpper else c) :: titleChars (isSeparator c) cs

/-- The function `strings.Title`, on ASCII. -/
def asciiTitle (s : String) : String := ⟨titleChars true s.data⟩

/-- The function `strings.ToLower`, on ASCII. -/
def asciiToLower (s : String) : String := ⟨s.data.map Char.toLower⟩

/-- A marker pattern, `^(//jig:[^ ]*) +([^ ]+)$`: the submatches of a match, or
`[]`. -/
def exampleSubmatch (text : String) : List String :=
  let key := text.data.takeWhile (fun c => c != ' ')
  let value := (text.data.dropWhile (fun c => c != ' ')).dropWhile (fun c => c == ' ')
  if "//jig:".data.isPrefixOf key && !value.isEmpty && !value.contains ' ' then
    [text, ⟨key⟩, ⟨value⟩]
  else []

/-- The lines of a text. -/
def splitLines : List Char → List (List Char)
  | [] => [[]]
  | c :: cs =>
    match splitLines cs with
    | [] => [[c]]
    | l :: ls => if c == '\n' then [] :: l :: ls else (c :: l) :: ls

/-- The line comments of a text, each a group of its own. -/
def lineComments (src : String) : List CommentGroup :=
  ((splitLines src.data).filter (fun l => "//".data.isPrefixOf l)).map
    (fun l => { List := [{ Text := ⟨l⟩ }] })

/-- The concrete environment: the marker keyword is `//jig:name`, a file is
registered under the path it was parsed with, it is written back as the text
it was parsed from, and the import fixer rejects a text whose braces do not
balance and otherwise finds nothing to change. -/
def exampleEnv : Env where
  jigName := "//jig:name"
  FindStringSubmatch := exampleSubmatch
  Title := asciiTitle
  ToLower := asciiToLower
  Join := fun dir file => if dir = "." then file else dir ++ "/" ++ file
  Filepath := fun file => file.Pos
  WriteFile := fun _ file => .ok file.Decls
  Process := fun src =>
    if src.data.count '\x7b' = src.data.count '\x7d' then .ok src else .error "unbalanced braces"
  ParseFile := fun path src => .ok { Pos := path, Comments := lineComments src, Decls := src }

/-- A filename template that ignores its data: `jig.go`. -/
def sharedTemplate : Template := ⟨fun _ => "jig.go"⟩

/-- A filename template that uses both casings of the name:
`{{.package}}_{{.Name}}_{{.name}}.go`. -/
def perNameTemplate : Template :=
  ⟨fun data => (data "package").getD "" ++ "_" ++ (data "Name").getD "" ++ "_" ++
    (data "name").getD "" ++ ".go"⟩

/-- A package with no file and no fragment. -/
def emptyPackage (filename : Template) : Package where
  Dir := "."
  Name := "main"
  Nodoc := false
  filename := filename
  fileset := GoMap.empty
  generated := GoMap.empty

/-- The text of `jig.go` holding the fragment `StackInt`. -/
def stackIntText : String :=
  "// Code generated by jig; DO NOT EDIT.\n\n//go:generate jig --regen\n\npackage main\n\n\n//jig:name StackInt\n\ntype StackInt []int\n"

/-- The file `jig.go` holding the fragment `StackInt`. -/
def stackIntFile : File where
  Pos := "jig.go"
  Comments := lineComments stackIntText
  Decls := stackIntText

/-- A package in which the fragment `StackInt` is present, in `jig.go`. -/
def stackIntPackage : Package where
  Dir := "."
  Name := "main"
  Nodoc := false
  filename := sharedTemplate
  fileset := GoMap.empty.set "jig.go" stackIntFile
  generated := GoMap.empty.set "StackInt" "jig.go"

/-! ## A concrete machine -/

/-- The instantiation a diagnostic reports as undefined. -/
def undefinedName (e : GoError) : Option String :=
  if "undefined: ".data.isPrefixOf e.data then some ⟨e.data.drop 11⟩ else none

/-- A concrete machine over the concrete environment. The package directory
holds at most the generated file `jig.go` next to the client code; the client
code references the instantiations `refs`, the typechecker reports those the
fragment store does not have as undefined, followed by the diagnostics
`other`, and the signatures suggested are the instantiations the diagnostics
report as undefined, each once. -/
def exampleOps (tplr : Specializer) (refs : List String) (other : List GoError) : Ops World where
  NewPackage := fun dir w => { w with pkg := { emptyPackage sharedTemplate with Dir := dir } }
  SetNodoc := fun nodoc w => { w with pkg := { w.pkg with Nodoc := nodoc } }
  ParseDir := fun w =>
    match w.disk "jig.go" with
    | some text =>
      match exampleEnv.ParseFile (exampleEnv.Join w.pkg.Dir "jig.go") text with
      | .ok file => (none, { w with pkg := ScanForGeneratedSources exampleEnv w.pkg file })
      | .error err => (some err, w)
    | none => (none, w)
  RemoveGeneratedSources := RemoveGeneratedSources exampleEnv
  Check := fun w =>
    (((refs.filter (fun n => !HasGeneratedSource w.pkg n)).map (fun n => "undefined: " ++ n) ++ other,
      none), w)
  LoadGeneratePragmas := fun w => ([], w)
  NewSpecializer := fun w => w
  LoadGenerics := fun w => (([], none), w)
  SuggestTypesToGenerate := fun _ errors => (errors.filterMap undefinedName).dedup
  GenerateCodeForType := GenerateCodeForType exampleEnv tplr
  WriteGeneratedSources := fun w =>
    WriteGeneratedSources exampleEnv [exampleEnv.Join w.pkg.Dir "jig.go"] w

/-- A template library, a signature being the name of its fragment: the
template of `StackInt`, and a template of `QueueInt` that renders a text
the import fixer rejects. -/
def exampleLibrary : Specializer where
  fragmentName := fun sig => sig
  instantiate := fun sig =>
    if sig = "StackInt" then some ("main", "type StackInt []int\n")
    else if sig = "QueueInt" then some ("main", "type QueueInt struct \x7b")
    else none

/-- The flags of a run without arguments. -/
def defaultFlags : Flags where
  clean := false
  forceregen := false
  missing := false
  verbose := false
  nodoc := false
  dir := ""

/-- The flags of a run that generates missing code only. -/
def missingFlags : Flags := { defaultFlags with missing := true }

/-- The flags of a verbose run. -/
def verboseFlags : Flags := { defaultFlags with verbose := true }

/-- A disk that holds the file `jig.go` of an earlier run, with the fragment
`StackInt`, and no package yet. -/
def generatedWorld : World where
  pkg := emptyPackage sharedTemplate
  forced := fun _ => false
  disk := GoMap.empty.set "jig.go" stackIntText

/-- A disk without generated files. -/
def freshWorld : World where
  pkg := emptyPackage sharedTemplate
  forced := fun _ => false
  disk := GoMap.empty

/-- The result of a run of the concrete machine, with a mark for a run that has
not ended within the fuel. -/
def exampleRun (tplr : Specializer) (refs : List String) (other : List GoError) (flags : Flags)
    (fuel : Nat) (w : World) : Int × Run World :=
  (jigMain (exampleOps tplr refs other) flags fuel w).getD
    (2, { state := w, stdout := [], stderr := [], calls := [] })

/-- Whether a text declares the type `n`. -/
def declares (text : String) (n : String) : Bool :=
  (splitLines text.data).any (fun l => ("type " ++ n ++ " ").data.isPrefixOf l)

/-- The text of a file `jig.go` whose fragment `StackInt` lost its declaration:
the marker is there, the type is not. -/
def staleText : String :=
  "// Code generated by jig; DO NOT EDIT.\n\n//go:generate jig --regen\n\npackage main\n\n\n//jig:name StackInt\n\n"

/-- A disk that holds the stale file `jig.go`. -/
def staleWorld : World where
  pkg := emptyPackage sharedTemplate
  forced := fun _ => false
  disk := GoMap.empty.set "jig.go" staleText

/-- The concrete machine on client code that references `StackInt` and carries
the directive `//jig:type StackInt`: the typechecker reports `StackInt` as
undefined while `jig.go` does not declare it, and the scan of the directives
forces the regeneration of `StackInt`. -/
def staleOps : Ops World :=
  { exampleOps exampleLibrary ["StackInt"] [] with
    Check := fun w =>
      let declared : String → Bool := fun n =>
        match w.pkg.fileset (exampleEnv.Join w.pkg.Dir "jig.go") with
        | some file => declares file.Decls n
        | none => false
      (((["StackInt"].filter (fun n => !declared n)).map (fun n => "undefined: " ++ n), none), w)
    LoadGeneratePragmas := fun w =>
      (["jig:type StackInt"], { w with forced := fun n => n == "StackInt" }) }

/-- The run of the stale machine up to the synthesis loop, for missing code
only. -/
def staleStart : Run World := (prepare staleOps missingFlags staleWorld).2
/-! ## Lemmas -/

theorem GoMap.set_same {V : Type} (m : GoMap V) (k : String) (v : V) : m.set k v k = some v := by
  simp [GoMap.set]

theorem GoMap.set_other {V : Type} (m : GoMap V) (k k' : String) (v : V) (h : k' ≠ k) :
    m.set k v k' = m k' := by
  simp [GoMap.set, h]

theorem gsaf_error_start (env : Env) (p : Package) (filename : Template)
    (packageName name source : String) (e : GoError)
    (h : bufferStart env p (destPath env p filename packageName name) = .error e) :
    GenerateSourceAppendFile env p filename packageName name source = (some e, p) := by
  unfold bufferStart destPath at h
  unfold GenerateSourceAppendFile
  simp only []
  cases hf : p.fileset (env.Join p.Dir (filename.Execute (filenameData env packageName name))) with
  | none => rw [hf] at h; simp at h
  | some file =>
    rw [hf] at h
    simp only [] at h ⊢
    rw [h]

theorem gsaf_ok_start (env : Env) (p : Package) (filename : Template)
    (packageName name source : String) (pre : String)
    (h : bufferStart env p (destPath env p filename packageName name) = .ok pre) :
    GenerateSourceAppendFile env p filename packageName name source =
      match env.Process (pre ++ ("\n" ++ env.jigName ++ " " ++ name ++ "\n\n" ++ source)) with
      | .error err => (some err, p)
      | .ok fixedsource =>
        match env.ParseFile (destPath env p filename packageName name) fixedsource with
        | .error err => (some err, p)
        | .ok file =>
          (none, { AddFile env p file with
            generated := (AddFile env p file).generated.set name
              (destPath env p filename packageName name) }) := by
  unfold bufferStart destPath at h
  unfold GenerateSourceAppendFile destPath
  simp only []
  cases hf : p.fileset (env.Join p.Dir (filename.Execute (filenameData env packageName name))) with
  | none =>
    rw [hf] at h
    simp only [Except.ok.injEq] at h
    subst h
    simp
  | some file =>
    rw [hf] at h
    simp only [] at h ⊢
    rw [h]
    simp

theorem scanComment_eq (env : Env) (file : File) (p : Package) (c : Comment) :
    scanComment env file p c =
      match markerName env c with
      | some n => { p with
          generated := p.generated.set n (env.Filepath file)
          fileset := p.fileset.set (env.Filepath file) file }
      | none => p := by
  unfold scanComment markerName
  by_cases h1 : HasPrefix c.Text env.jigName = true
  · by_cases h2 : (env.FindStringSubmatch c.Text).length = 3
    · by_cases h3 : (env.FindStringSubmatch c.Text).getD 1 "" = env.jigName
      · simp only [h1, h2, h3, if_true, and_self]
      · simp only [h1, h2, h3, if_true, if_false, and_false]
    · simp only [h1, h2, if_true, if_false, and_false, false_and]
  · simp only [h1, if_false, false_and]; simp

/-- The state after scanning a list of comments of one file. -/
theorem scan_foldl (env : Env) (file : File) (cs : List Comment) (p : Package) :
    let q := cs.foldl (scanComment env file) p
    (∀ n, q.generated n =
        if (∃ c ∈ cs, markerName env c = some n) then some (env.Filepath file) else p.generated n) ∧
    (∀ k, q.fileset k =
        if k = env.Filepath file ∧ (∃ c ∈ cs, (markerName env c).isSome = true) then some file
        else p.fileset k) ∧
    q.Dir = p.Dir ∧ q.Name = p.Name ∧ q.Nodoc = p.Nodoc ∧ q.filename = p.filename := by
  induction cs generalizing p with
  | nil => simp
  | cons c cs ih =>
    simp only [List.foldl_cons]
    obtain ⟨hg, hf, hd, hn, ho, ht⟩ := ih (scanComment env file p c)
    refine ⟨?_, ?_, ?_, ?_, ?_, ?_⟩
    · intro n
      rw [hg n, scanComment_eq]
      cases hm : markerName env c with
      | none => simp [hm]
      | some m =>
        simp only [List.mem_cons, exists_eq_or_imp, hm, Option.some.injEq]
        by_cases hmn : m = n
        · subst hmn
          simp [GoMap.set]
        · by_cases hex : ∃ c ∈ cs, markerName env c = some n
          · simp [hex]
          · have : n ≠ m := fun h => hmn h.symm
            simp [hex, hmn, GoMap.set, this]
    · intro k
      rw [hf k, scanComment_eq]
      cases hm : markerName env c with
      | none => simp [hm]
      | some m =>
        simp only [List.mem_cons, exists_eq_or_imp, hm, Option.isSome_some, true_or, and_true]
        by_cases hk : k = env.Filepath file
        · simp [hk, GoMap.set]
        · simp [hk, GoMap.set]
    · rw [hd, scanComment_eq]; cases markerName env c <;> rfl
    · rw [hn, scanComment_eq]; cases markerName env c <;> rfl
    · rw [ho, scanComment_eq]; cases markerName env c <;> rfl
    · rw [ht, scanComment_eq]; cases markerName env c <;> rfl

theorem scan_flat (env : Env) (file : File) (gs : List CommentGroup) (p : Package) :
    gs.foldl (fun p cgroup => cgroup.List.foldl (scanComment env file) p) p =
      (gs.flatMap (fun g => g.List)).foldl (scanComment env file) p := by
  induction gs generalizing p with
  | nil => rfl
  | cons g gs ih => simp [List.foldl_append, ih]

theorem Package.ext_fields (p q : Package) (h1 : p.Dir = q.Dir) (h2 : p.Name = q.Name)
    (h3 : p.Nodoc = q.Nodoc) (h4 : p.filename = q.filename) (h5 : ∀ k, p.fileset k = q.fileset k)
    (h6 : ∀ k, p.generated k = q.generated k) : p = q := by
  cases p; cases q
  simp only [Package.mk.injEq]
  exact ⟨h1, h2, h3, h4, funext h5, funext h6⟩

/-- The state after `ScanForGeneratedSources`. -/
theorem scan_spec (env : Env) (p : Package) (file : File) :
    let q := ScanForGeneratedSources env p file
    (∀ n, q.generated n =
        if (∃ g ∈ file.Comments, ∃ c ∈ g.List, markerName env c = some n)
        then some (env.Filepath file) else p.generated n) ∧
    (∀ k, q.fileset k =
        if k = env.Filepath file ∧ (∃ g ∈ file.Comments, ∃ c ∈ g.List, (markerName env c).isSome = true)
        then some file else p.fileset k) ∧
    q.Dir = p.Dir ∧ q.Name = p.Name ∧ q.Nodoc = p.Nodoc ∧ q.filename = p.filename := by
  have h := scan_foldl env file (file.Comments.flatMap (fun g => g.List)) p
  simp only [ScanForGeneratedSources, scan_flat]
  obtain ⟨hg, hf, hrest⟩ := h
  have key : ∀ P : Comment → Prop,
      (∃ c ∈ file.Comments.flatMap (fun g => g.List), P c) ↔
        (∃ g ∈ file.Comments, ∃ c ∈ g.List, P c) := by
    intro P
    constructor
    · rintro ⟨c, hc, hm⟩
      obtain ⟨g, hg, hcg⟩ := List.mem_flatMap.1 hc
      exact ⟨g, hg, c, hcg, hm⟩
    · rintro ⟨g, hg, c, hc, hm⟩
      exact ⟨c, List.mem_flatMap.2 ⟨g, hg, hc⟩, hm⟩
  refine ⟨?_, ?_, hrest⟩
  · intro n
    rw [hg n]
    simp only [key (fun c => markerName env c = some n)]
  · intro k
    rw [hf k]
    simp only [key (fun c => (markerName env c).isSome = true)]

theorem gsaf_error_state (env : Env) (p : Package) (filename : Template)
    (packageName name source : String)
    (h : (GenerateSourceAppendFile env p filename packageName name source).1 ≠ none) :
    (GenerateSourceAppendFile env p filename packageName name source).2 = p := by
  cases hs : bufferStart env p (destPath env p filename packageName name) with
  | error e => rw [gsaf_error_start env p filename packageName name source e hs]
  | ok pre =>
    rw [gsaf_ok_start env p filename packageName name source pre hs] at h ⊢
    cases hp : env.Process (pre ++ ("\n" ++ env.jigName ++ " " ++ name ++ "\n\n" ++ source)) with
    | error e => simp
    | ok fixed =>
      rw [hp] at h
      simp only [] at h ⊢
      cases hq : env.ParseFile (destPath env p filename packageName name) fixed with
      | error e => simp
      | ok file => rw [hq] at h; simp at h

theorem gsaf_ok_state (env : Env) (p : Package) (filename : Template)
    (packageName name source : String)
    (h : (GenerateSourceAppendFile env p filename packageName name source).1 = none) :
    ∃ file text, env.ParseFile (destPath env p filename packageName name) text = .ok file ∧
      (GenerateSourceAppendFile env p filename packageName name source).2 =
        { p with
          fileset := p.fileset.set (env.Filepath file) file
          generated := p.generated.set name (destPath env p filename packageName name) } := by
  cases hs : bufferStart env p (destPath env p filename packageName name) with
  | error e =>
    rw [gsaf_error_start env p filename packageName name source e hs] at h
    simp at h
  | ok pre =>
    rw [gsaf_ok_start env p filename packageName name source pre hs] at h ⊢
    cases hp : env.Process (pre ++ ("\n" ++ env.jigName ++ " " ++ name ++ "\n\n" ++ source)) with
    | error e => rw [hp] at h; simp at h
    | ok fixed =>
      rw [hp] at h
      simp only [] at h ⊢
      cases hq : env.ParseFile (destPath env p filename packageName name) fixed with
      | error e => rw [hq] at h; simp at h
      | ok file => exact ⟨file, fixed, hq, rfl⟩

/-! ## Lemmas on runs -/

theorem Extends.refl {σ : Type} (v : Bool) (r : Run σ) : Extends v r r [] := by
  refine ⟨by simp, ?_, by simp⟩
  cases v <;> simp

theorem Extends.trans {σ : Type} {v : Bool} {r1 r2 r3 : Run σ} {e1 e2 : List Call}
    (h1 : Extends v r1 r2 e1) (h2 : Extends v r2 r3 e2) : Extends v r1 r3 (e1 ++ e2) := by
  obtain ⟨a1, b1, c1⟩ := h1
  obtain ⟨a2, b2, c2⟩ := h2
  refine ⟨by rw [a2, a1, List.append_assoc], ?_, ?_⟩
  · rw [b2, b1]
    cases v <;> simp
  · rw [c2, c1]
    simp

theorem printedError_fst {σ : Type} (v : Bool) (m : List String) (e : Option GoError)
    (r : Run σ) : (printedError v m e r).1 = e.isSome := by
  unfold printedError
  cases e <;> rfl

theorem printedError_state {σ : Type} (v : Bool) (m : List String) (e : Option GoError)
    (r : Run σ) : (printedError v m e r).2.state = r.state := by
  unfold printedError
  cases e <;> cases v <;> rfl

theorem printedError_extends {σ : Type} (v : Bool) (r : Run σ) (s : σ) (c : Call)
    (m : List String) (e : Option GoError) (hm : c.messages = m) (he : c.err = e) :
    Extends v r (printedError v m e { r with state := s, calls := r.calls ++ [c] }).2 [c] := by
  subst hm he
  unfold printedError Extends
  cases v <;> cases h : c.err <;> simp [h]

theorem lastCheck_append_some (l1 l2 : List Call) (errors : List GoError)
    (h : lastCheck l2 = some errors) : lastCheck (l1 ++ l2) = some errors := by
  induction l1 with
  | nil => simpa using h
  | cons c cs ih => simp [lastCheck, ih]

theorem lastCheck_append_none (l1 l2 : List Call) (h : ∀ c ∈ l2, c.isCheck = false) :
    lastCheck (l1 ++ l2) = lastCheck l1 := by
  induction l1 with
  | nil =>
    simp only [List.nil_append]
    induction l2 with
    | nil => rfl
    | cons c cs ih =>
      have hc := h c (by simp)
      have hcs : ∀ c ∈ cs, c.isCheck = false := fun c hc => h c (by simp [hc])
      simp only [lastCheck, ih hcs]
      cases c <;> simp_all [Call.isCheck]
  | cons c cs ih => simp [lastCheck, ih]

/-- What the loop over the signatures does to a run. -/
theorem generateAll_spec {σ : Type} (ops : Ops σ) (v : Bool) (sigs : List String) (g : Bool)
    (r : Run σ) :
    ∃ ext, Extends v r (generateAll ops v sigs g r).2.2 ext ∧
      (∀ c ∈ ext, ∃ sig m e, c = Call.GenerateCodeForType sig m e) ∧
      ((generateAll ops v sigs g r).1 = none →
        (∀ c ∈ ext, c.err = none) ∧
        (generateAll ops v sigs g r).2.1 = (g || ext.any (fun c => decide (c.messages.length > 0)))) ∧
      (∀ code, (generateAll ops v sigs g r).1 = some code →
        code = 1 ∧ ∃ c ∈ ext, c.err ≠ none) ∧
      (∀ R : σ → σ → Prop, LoopFrame ops R → R r.state (generateAll ops v sigs g r).2.2.state) := by
  induction sigs generalizing g r with
  | nil =>
    refine ⟨[], Extends.refl v r, by simp, ?_, ?_, ?_⟩
    · intro _; simp [generateAll]
    · intro code h; simp [generateAll] at h
    · intro R hR; exact hR.refl _
  | cons sig sigs ih =>
    have hgenR : ∀ R : σ → σ → Prop, LoopFrame ops R →
        R r.state (ops.GenerateCodeForType sig r.state).2 := fun R hR => hR.generate sig r.state
    simp only [generateAll]
    generalize ops.GenerateCodeForType sig r.state = res at hgenR ⊢
    obtain ⟨⟨m, e⟩, s⟩ := res
    simp only [] at hgenR ⊢
    have hext := printedError_extends v r s (Call.GenerateCodeForType sig m e) m e rfl rfl
    have hstate := printedError_state v m e
      { r with state := s, calls := r.calls ++ [Call.GenerateCodeForType sig m e] }
    simp only [] at hstate
    rw [printedError_fst]
    generalize (printedError v m e
      { r with state := s, calls := r.calls ++ [Call.GenerateCodeForType sig m e] }).2 = r1
      at hext hstate ⊢
    cases e with
    | some e =>
      simp only [Option.isSome_some, if_true]
      refine ⟨[Call.GenerateCodeForType sig m (some e)], hext, ?_, ?_, ?_, ?_⟩
      · intro c hc
        simp only [List.mem_singleton] at hc
        exact ⟨_, _, _, hc⟩
      · intro h
        simp at h
      · intro code h
        simp only [Option.some.injEq] at h
        exact ⟨h.symm, _, List.mem_singleton.2 rfl, by simp [Call.err]⟩
      · intro R hR
        rw [hstate]
        exact hgenR R hR
    | none =>
      simp only [Option.isSome_none, Bool.false_eq_true, if_false]
      obtain ⟨ext, hext2, hall, hnone, hsome, hR2⟩ := ih (g || decide (m.length > 0)) r1
      refine ⟨Call.GenerateCodeForType sig m none :: ext, Extends.trans hext hext2, ?_, ?_, ?_, ?_⟩
      · intro c hc
        simp only [List.mem_cons] at hc
        rcases hc with hc | hc
        · exact ⟨_, _, _, hc⟩
        · exact hall c hc
      · intro h
        obtain ⟨h1, h2⟩ := hnone h
        refine ⟨?_, ?_⟩
        · intro c hc
          simp only [List.mem_cons] at hc
          rcases hc with hc | hc
          · rw [hc]; rfl
          · exact h1 c hc
        · rw [h2]
          simp [Call.messages, Bool.or_assoc]
      · intro code h
        obtain ⟨h1, c, hc, hce⟩ := hsome code h
        exact ⟨h1, c, List.mem_cons_of_mem _ hc, hce⟩
      · intro R hR
        refine hR.trans _ _ _ ?_ (hR2 R hR)
        rw [hstate]
        exact hgenR R hR

theorem call_step {σ : Type} (v : Bool) (r : Run σ) (s : σ) (c : Call)
    (m : List String) (e : Option GoError) (hm : c.messages = m) (he : c.err = e) :
    ∃ r1 : Run σ, printedError v m e { r with state := s, calls := r.calls ++ [c] } =
        (e.isSome, r1) ∧ Extends v r r1 [c] ∧ r1.state = s := by
  refine ⟨(printedError v m e { r with state := s, calls := r.calls ++ [c] }).2, ?_,
    printedError_extends v r s c m e hm he, printedError_state _ _ _ _⟩
  rw [← printedError_fst v m e { r with state := s, calls := r.calls ++ [c] }]

theorem no_message_of_any (ext : List Call)
    (h : (false || ext.any (fun c => decide (c.messages.length > 0))) = false)
    (sig : String) (m : List String) (e : Option GoError)
    (hmem : Call.GenerateCodeForType sig m e ∈ ext) : m = [] := by
  simp only [Bool.false_or, List.any_eq_false, decide_eq_true_eq] at h
  have := h _ hmem
  simp only [Call.messages, gt_iff_lt, List.length_pos, ne_eq, not_not] at this
  exact this

/-- What one pass through the body of the synthesis loop does to a run. -/
theorem loopBody_spec {σ : Type} (ops : Ops σ) (v : Bool) (tplr : Bool) (r : Run σ) :
    ∃ errs cerr ext,
      Extends v r (loopBody ops v tplr r).run (Call.Check errs cerr :: ext) ∧
      (∀ c ∈ ext, c.inLoop = true ∧ c.isCheck = false) ∧
      (∀ R : σ → σ → Prop, LoopFrame ops R → R r.state (loopBody ops v tplr r).run.state) ∧
      (match loopBody ops v tplr r with
        | Pass.returned code _ => code = 1 ∧ ∃ c ∈ Call.Check errs cerr :: ext, c.err ≠ none
        | Pass.broke errors _ => errors = errs ∧ errs = [] ∧
            ∀ c ∈ Call.Check errs cerr :: ext, c.err = none
        | Pass.completed g errors _ => errors = errs ∧ errs ≠ [] ∧
            (∀ c ∈ Call.Check errs cerr :: ext, c.err = none) ∧
            (g = false → ∀ sig m e, Call.GenerateCodeForType sig m e ∈ ext → m = [])) := by
  unfold loopBody
  simp only []
  have hR1 : ∀ R : σ → σ → Prop, LoopFrame ops R → R r.state (ops.Check r.state).2 :=
    fun R hR => hR.check _
  generalize ops.Check r.state = res1 at hR1 ⊢
  obtain ⟨⟨errs, cerr⟩, s1⟩ := res1
  simp only [] at hR1 ⊢
  obtain ⟨r1, hp1, hx1, hs1⟩ := call_step v r s1 (Call.Check errs cerr) [] cerr rfl rfl
  rw [hp1]
  simp only []
  refine ⟨errs, cerr, ?_⟩
  cases cerr with
  | some e =>
    refine ⟨[], ?_, by simp, ?_, ?_⟩
    · simpa [Pass.run] using hx1
    · intro R hR
      simp only [Option.isSome_some, if_true, Pass.run]
      rw [hs1]; exact hR1 R hR
    · simp [Call.err]
  | none =>
    simp only [Option.isSome_none, Bool.false_eq_true, if_false]
    by_cases hlen : errs.length = 0
    · simp only [hlen, if_true]
      refine ⟨[], ?_, by simp, ?_, ?_⟩
      · simpa [Pass.run] using hx1
      · intro R hR
        simp only [Pass.run]
        rw [hs1]; exact hR1 R hR
      · refine ⟨trivial, List.length_eq_zero.1 hlen, ?_⟩
        simp [Call.err]
    · simp only [hlen, if_false]
      have hR2 : ∀ R : σ → σ → Prop, LoopFrame ops R →
          R r1.state (ops.LoadGeneratePragmas r1.state).2 := fun R hR => hR.pragmas _
      generalize ops.LoadGeneratePragmas r1.state = res2 at hR2 ⊢
      obtain ⟨m2, s2⟩ := res2
      simp only [] at hR2 ⊢
      obtain ⟨r2, hp2, hx2, hs2⟩ :=
        call_step v r1 s2 (Call.LoadGeneratePragmas m2) m2 none rfl rfl
      rw [hp2]
      simp only [Option.isSome_none, Bool.false_eq_true, if_false]
      have hx12 := Extends.trans hx1 hx2
      have hne : errs ≠ [] := fun h => hlen (by rw [h]; rfl)
      cases tplr with
      | true =>
        simp only [if_true, Bool.false_eq_true, if_false]
        obtain ⟨ext, hx3, hall, hnone, hsome, hR3⟩ :=
          generateAll_spec ops v (ops.SuggestTypesToGenerate r2.state errs) false r2
        have hx := Extends.trans hx12 hx3
        have hin : ∀ c ∈ Call.LoadGeneratePragmas m2 :: ext,
            c.inLoop = true ∧ c.isCheck = false := by
          intro c hc
          simp only [List.mem_cons] at hc
          rcases hc with hc | hc
          · rw [hc]; exact ⟨rfl, rfl⟩
          · obtain ⟨sig, m, e, hce⟩ := hall c hc
            rw [hce]; exact ⟨rfl, rfl⟩
        have hRall : ∀ R : σ → σ → Prop, LoopFrame ops R → R r.state
            (generateAll ops v (ops.SuggestTypesToGenerate r2.state errs) false r2).2.2.state := by
          intro R hR
          refine hR.trans _ _ _ ?_ (hR3 R hR)
          rw [hs2]
          refine hR.trans _ _ _ (hR1 R hR) ?_
          have := hR2 R hR
          rwa [hs1] at this
        refine ⟨Call.LoadGeneratePragmas m2 :: ext, ?_, hin, ?_, ?_⟩
        · cases hg : (generateAll ops v (ops.SuggestTypesToGenerate r2.state errs) false r2).1 <;>
            simpa [Pass.run] using hx
        · intro R hR
          cases hg : (generateAll ops v (ops.SuggestTypesToGenerate r2.state errs) false r2).1 <;>
            simpa [Pass.run] using hRall R hR
        · cases hg : (generateAll ops v (ops.SuggestTypesToGenerate r2.state errs) false r2).1 with
          | some code =>
            simp only []
            obtain ⟨h1, c, hc, hce⟩ := hsome code hg
            exact ⟨h1, c, by simp [hc], hce⟩
          | none =>
            simp only []
            refine ⟨trivial, hne, ?_, ?_⟩
            · intro c hc
              simp only [List.mem_cons] at hc
              rcases hc with hc | hc | hc
              · rw [hc]; rfl
              · rw [hc]; rfl
              · exact (hnone hg).1 c hc
            · intro hg0 sig m e hmem
              simp only [List.mem_cons] at hmem
              rcases hmem with hmem | hmem
              · simp at hmem
              · exact no_message_of_any ext ((hnone hg).2.symm.trans hg0) sig m e hmem
      | false =>
        simp only [Bool.false_eq_true, if_false]
        have hR4 : ∀ R : σ → σ → Prop, LoopFrame ops R →
            R r2.state (ops.LoadGenerics (ops.NewSpecializer r2.state)).2 :=
          fun R hR => hR.trans _ _ _ (hR.newSpecializer _) (hR.loadGenerics _)
        generalize ops.LoadGenerics (ops.NewSpecializer r2.state) = res4 at hR4 ⊢
        obtain ⟨⟨m4, e4⟩, s4⟩ := res4
        simp only [] at hR4 ⊢
        obtain ⟨r4, hp4, hx4, hs4⟩ :=
          call_step v r2 s4 (Call.LoadGenerics m4 e4) m4 e4 rfl rfl
        rw [hp4]
        simp only []
        have hx124 := Extends.trans hx12 hx4
        have hR124 : ∀ R : σ → σ → Prop, LoopFrame ops R → R r.state r4.state := by
          intro R hR
          rw [hs4]
          refine hR.trans _ _ _ (hR1 R hR) ?_
          have h2 := hR2 R hR
          rw [hs1] at h2
          refine hR.trans _ _ _ h2 ?_
          have h4 := hR4 R hR
          rwa [hs2] at h4
        cases e4 with
        | some e =>
          simp only [Option.isSome_some, if_true]
          refine ⟨[Call.LoadGeneratePragmas m2, Call.LoadGenerics m4 (some e)], ?_, ?_, ?_, ?_⟩
          · simpa [Pass.run] using hx124
          · intro c hc
            simp only [List.mem_cons, List.mem_singleton, List.not_mem_nil, or_false] at hc
            rcases hc with hc | hc <;> (rw [hc]; exact ⟨rfl, rfl⟩)
          · intro R hR
            simpa [Pass.run] using hR124 R hR
          · exact ⟨trivial, Call.LoadGenerics m4 (some e), by simp, by simp [Call.err]⟩
        | none =>
          simp only [Option.isSome_none, Bool.false_eq_true, if_false]
          obtain ⟨ext, hx3, hall, hnone, hsome, hR3⟩ :=
            generateAll_spec ops v (ops.SuggestTypesToGenerate r4.state errs) false r4
          have hx := Extends.trans hx124 hx3
          have hin : ∀ c ∈ Call.LoadGeneratePragmas m2 :: Call.LoadGenerics m4 none :: ext,
              c.inLoop = true ∧ c.isCheck = false := by
            intro c hc
            simp only [List.mem_cons] at hc
            rcases hc with hc | hc | hc
            · rw [hc]; exact ⟨rfl, rfl⟩
            · rw [hc]; exact ⟨rfl, rfl⟩
            · obtain ⟨sig, m, e, hce⟩ := hall c hc
              rw [hce]; exact ⟨rfl, rfl⟩
          have hRall : ∀ R : σ → σ → Prop, LoopFrame ops R → R r.state
              (generateAll ops v (ops.SuggestTypesToGenerate r4.state errs) false r4).2.2.state :=
            fun R hR => hR.trans _ _ _ (hR124 R hR) (hR3 R hR)
          refine ⟨Call.LoadGeneratePragmas m2 :: Call.LoadGenerics m4 none :: ext,
            ?_, hin, ?_, ?_⟩
          · cases hg : (generateAll ops v (ops.SuggestTypesToGenerate r4.state errs) false r4).1 <;>
              simpa [Pass.run] using hx
          · intro R hR
            cases hg : (generateAll ops v (ops.SuggestTypesToGenerate r4.state errs) false r4).1 <;>
              simpa [Pass.run] using hRall R hR
          · cases hg : (generateAll ops v (ops.SuggestTypesToGenerate r4.state errs) false r4).1 with
            | some code =>
              simp only []
              obtain ⟨h1, c, hc, hce⟩ := hsome code hg
              exact ⟨h1, c, by simp [hc], hce⟩
            | none =>
              simp only []
              refine ⟨trivial, hne, ?_, ?_⟩
              · intro c hc
                simp only [List.mem_cons] at hc
                rcases hc with hc | hc | hc | hc
                · rw [hc]; rfl
                · rw [hc]; rfl
                · rw [hc]; rfl
                · exact (hnone hg).1 c hc
              · intro hg0 sig m e hmem
                simp only [List.mem_cons] at hmem
                rcases hmem with hmem | hmem | hmem
                · simp at hmem
                · simp at hmem
                · exact no_message_of_any ext ((hnone hg).2.symm.trans hg0) sig m e hmem

theorem lastCheck_cons_check (errs : List GoError) (cerr : Option GoError) (ext : List Call)
    (h : ∀ c ∈ ext, c.isCheck = false) : lastCheck (Call.Check errs cerr :: ext) = some errs := by
  have := lastCheck_append_none [Call.Check errs cerr] ext h
  simp only [List.singleton_append] at this
  rw [this]
  rfl

/-- What the synthesis loop does to a run. -/
theorem synthesisLoop_spec {σ : Type} (ops : Ops σ) (v : Bool) (fuel : Nat) (tplr : Bool)
    (r : Run σ) (e : LoopEnd σ) (h : synthesisLoop ops v fuel tplr r = some e) :
    ∃ ext, Extends v r e.run ext ∧
      (∀ c ∈ ext, c.inLoop = true) ∧
      (∀ R : σ → σ → Prop, LoopFrame ops R → R r.state e.run.state) ∧
      (match e with
        | LoopEnd.returned code _ => code = 1 ∧ ∃ c ∈ ext, c.err ≠ none
        | LoopEnd.left errors _ => (∀ c ∈ ext, c.err = none) ∧ lastCheck ext = some errors) := by
  induction fuel generalizing tplr r with
  | zero => simp [synthesisLoop] at h
  | succ fuel ih =>
    obtain ⟨errs, cerr, ext, hx, hin, hR, hm⟩ := loopBody_spec ops v tplr r
    have hin1 : ∀ c ∈ Call.Check errs cerr :: ext, c.inLoop = true := by
      intro c hc
      simp only [List.mem_cons] at hc
      rcases hc with hc | hc
      · rw [hc]; rfl
      · exact (hin c hc).1
    have hlast : lastCheck (Call.Check errs cerr :: ext) = some errs :=
      lastCheck_cons_check errs cerr ext (fun c hc => (hin c hc).2)
    simp only [synthesisLoop] at h
    cases hb : loopBody ops v tplr r with
    | returned code r1 =>
      rw [hb] at h hx hR hm
      simp only [Option.some.injEq] at h
      subst h
      exact ⟨_, hx, hin1, hR, hm⟩
    | broke errors r1 =>
      rw [hb] at h hx hR hm
      simp only [Option.some.injEq] at h
      subst h
      refine ⟨_, hx, hin1, hR, hm.2.2, ?_⟩
      rw [hlast, hm.1]
    | completed g errors r1 =>
      rw [hb] at h hx hR hm
      simp only [] at h hm
      cases g with
      | false =>
        simp only [Bool.false_eq_true, if_false, Option.some.injEq] at h
        subst h
        refine ⟨_, hx, hin1, hR, hm.2.2.1, ?_⟩
        rw [hlast, hm.1]
      | true =>
        simp only [if_true] at h
        obtain ⟨ext2, hx2, hin2, hR2, hm2⟩ := ih true r1 h
        refine ⟨(Call.Check errs cerr :: ext) ++ ext2, Extends.trans hx hx2, ?_, ?_, ?_⟩
        · intro c hc
          rcases List.mem_append.1 hc with hc | hc
          · exact hin1 c hc
          · exact hin2 c hc
        · intro R hR0
          exact hR0.trans _ _ _ (hR R hR0) (hR2 R hR0)
        · cases e with
          | returned code r2 =>
            simp only [] at hm2 ⊢
            obtain ⟨h1, c, hc, hce⟩ := hm2
            exact ⟨h1, c, List.mem_append_right _ hc, hce⟩
          | left errors2 r2 =>
            simp only [] at hm2 ⊢
            refine ⟨?_, lastCheck_append_some _ _ _ hm2.2⟩
            intro c hc
            rcases List.mem_append.1 hc with hc | hc
            · exact hm.2.2.1 c hc
            · exact hm2.1 c hc

/-- What the part of `jigMain` before the synthesis loop does. -/
theorem prepare_spec {σ : Type} (ops : Ops σ) (flags : Flags) (s0 : σ) :
    ∃ ext, Extends flags.verbose (Run.init s0) (prepare ops flags s0).2 ext ∧
      (∀ c ∈ ext, (∃ e, c = Call.ParseDir e) ∨ (∃ m e, c = Call.RemoveGeneratedSources m e)) ∧
      ((prepare ops flags s0).1 = none → flags.clean = false ∧ ∀ c ∈ ext, c.err = none) ∧
      (∀ code, (prepare ops flags s0).1 = some code →
        (code = 1 ∧ ∃ c ∈ ext, c.err ≠ none) ∨ (code = 0 ∧ flags.clean = true)) ∧
      ((prepare ops flags s0).1 = none →
        ((flags.missing = true ∧ flags.forceregen = false) →
          (prepare ops flags s0).2.state = parsedState ops flags s0 ∧ ext = [Call.ParseDir none]) ∧
        (¬ (flags.missing = true ∧ flags.forceregen = false) →
          (prepare ops flags s0).2.state =
            (ops.RemoveGeneratedSources (parsedState ops flags s0)).2)) := by
  unfold prepare parsedState
  simp only []
  generalize ops.ParseDir (ops.SetNodoc flags.nodoc
    (ops.NewPackage (if flags.dir = "" then "." else flags.dir) s0)) = res1
  obtain ⟨e1, s1⟩ := res1
  simp only []
  obtain ⟨r1, hp1, hx1, hs1⟩ := call_step flags.verbose
    ({ state := ops.SetNodoc flags.nodoc
        (ops.NewPackage (if flags.dir = "" then "." else flags.dir) s0),
       stdout := [], stderr := [], calls := [] } : Run σ) s1 (Call.ParseDir e1) [] e1 rfl rfl
  rw [hp1]
  simp only []
  have hx1' : Extends flags.verbose (Run.init s0) r1 [Call.ParseDir e1] := hx1
  cases e1 with
  | some e =>
    simp only [Option.isSome_some, if_true]
    refine ⟨_, hx1', ?_, ?_, ?_, ?_⟩
    · intro c hc
      simp only [List.mem_singleton] at hc
      exact Or.inl ⟨_, hc⟩
    · intro h; simp at h
    · intro code h
      simp only [Option.some.injEq] at h
      exact Or.inl ⟨h.symm, _, List.mem_singleton.2 rfl, by simp [Call.err]⟩
    · intro h; simp at h
  | none =>
    simp only [Option.isSome_none, Bool.false_eq_true, if_false]
    have hstep : ∀ m2 e2 s2, ∃ r2 : Run σ,
        printedError flags.verbose m2 e2
          { r1 with state := s2, calls := r1.calls ++ [Call.RemoveGeneratedSources m2 e2] } =
          (e2.isSome, r2) ∧
        Extends flags.verbose (Run.init s0) r2
          [Call.ParseDir none, Call.RemoveGeneratedSources m2 e2] ∧ r2.state = s2 := by
      intro m2 e2 s2
      obtain ⟨r2, hp2, hx2, hs2⟩ := call_step flags.verbose r1 s2
        (Call.RemoveGeneratedSources m2 e2) m2 e2 rfl rfl
      exact ⟨r2, hp2, Extends.trans hx1' hx2, hs2⟩
    rw [hs1]
    generalize ops.RemoveGeneratedSources s1 = res2
    obtain ⟨⟨m2, e2⟩, s2⟩ := res2
    obtain ⟨r2, hp2, hx2, hs2⟩ := hstep m2 e2 s2
    by_cases hmode : (flags.clean || !(if (flags.forceregen && flags.missing) = true then false
        else flags.missing)) = true
    · simp only [hmode, if_true]
      rw [hp2]
      simp only []
      have hmem : ∀ c ∈ [Call.ParseDir none, Call.RemoveGeneratedSources m2 e2],
          (∃ e, c = Call.ParseDir e) ∨ (∃ m e, c = Call.RemoveGeneratedSources m e) := by
        intro c hc
        simp only [List.mem_cons, List.mem_singleton, List.not_mem_nil, or_false] at hc
        rcases hc with hc | hc
        · exact Or.inl ⟨_, hc⟩
        · exact Or.inr ⟨_, _, hc⟩
      have hnot : ¬ (flags.missing = true ∧ flags.forceregen = false) ∨ flags.clean = true := by
        by_cases hc : flags.clean = true
        · exact Or.inr hc
        · left
          rintro ⟨hm, hf⟩
          simp [hm, hf, hc] at hmode
      cases e2 with
      | some e =>
        simp only [Option.isSome_some, if_true]
        refine ⟨_, hx2, hmem, ?_, ?_, ?_⟩
        · intro h; simp at h
        · intro code h
          simp only [Option.some.injEq] at h
          exact Or.inl ⟨h.symm, Call.RemoveGeneratedSources m2 (some e), by simp, by simp [Call.err]⟩
        · intro h; simp at h
      | none =>
        simp only [Option.isSome_none, Bool.false_eq_true, if_false]
        by_cases hc : flags.clean = true
        · simp only [hc, if_true]
          refine ⟨_, hx2, hmem, ?_, ?_, ?_⟩
          · intro h; simp at h
          · intro code h
            simp only [Option.some.injEq] at h
            exact Or.inr ⟨h.symm, trivial⟩
          · intro h; simp at h
        · simp only [hc, if_false]
          refine ⟨_, hx2, hmem, ?_, ?_, ?_⟩
          · intro _
            refine ⟨by simp [hc], ?_⟩
            intro c hc
            simp only [List.mem_cons, List.mem_singleton, List.not_mem_nil, or_false] at hc
            rcases hc with hc | hc <;> (rw [hc]; rfl)
          · intro code h; simp at h
          · intro _
            refine ⟨?_, ?_⟩
            · intro hmf
              rcases hnot with h | h
              · exact absurd hmf h
              · exact absurd h hc
            · intro _
              exact hs2
    · simp only [hmode, if_false]
      have hclean : flags.clean = false := by
        cases h : flags.clean
        · rfl
        · simp [h] at hmode
      have hmf : flags.missing = true ∧ flags.forceregen = false := by
        cases h1 : flags.missing <;> cases h2 : flags.forceregen <;> simp [h1, h2, hclean] at hmode ⊢
      refine ⟨_, hx1', ?_, ?_, ?_, ?_⟩
      · intro c hc
        simp only [List.mem_singleton] at hc
        exact Or.inl ⟨_, hc⟩
      · intro _
        refine ⟨hclean, ?_⟩
        intro c hc
        simp only [List.mem_singleton] at hc
        rw [hc]; rfl
      · intro code h; simp at h
      · intro _
        refine ⟨fun _ => ⟨hs1, rfl⟩, fun h => absurd hmf h⟩

/-- The three ways a run of `jigMain` ends: before the loop, by a `return`
inside the loop, or after the flush that follows the loop. -/
theorem jigMain_cases {σ : Type} (ops : Ops σ) (flags : Flags) (fuel : Nat) (s0 : σ)
    (code : Int) (r : Run σ) (h : jigMain ops flags fuel s0 = some (code, r)) :
    ((prepare ops flags s0).1 = some code ∧ r = (prepare ops flags s0).2) ∨
    ((prepare ops flags s0).1 = none ∧
      synthesisLoop ops flags.verbose fuel false (prepare ops flags s0).2 =
        some (LoopEnd.returned code r)) ∨
    ((prepare ops flags s0).1 = none ∧ ∃ errors r1 r2 m e,
      synthesisLoop ops flags.verbose fuel false (prepare ops flags s0).2 =
        some (LoopEnd.left errors r1) ∧
      Extends flags.verbose r1 r2 [Call.WriteGeneratedSources m e] ∧
      ((e ≠ none ∧ code = 1 ∧ r = r2) ∨
       (e = none ∧ r = { r2 with stdout := r2.stdout ++ errors } ∧
        code = if errors.length > 0 then 1 else 0))) := by
  unfold jigMain at h
  simp only [if_true] at h
  cases hp : (prepare ops flags s0).1 with
  | some c =>
    rw [hp] at h
    simp only [Option.some.injEq, Prod.mk.injEq] at h
    exact Or.inl ⟨by rw [h.1], h.2.symm⟩
  | none =>
    rw [hp] at h
    simp only [] at h
    right
    cases hl : synthesisLoop ops flags.verbose fuel false (prepare ops flags s0).2 with
    | none => rw [hl] at h; simp at h
    | some e =>
      rw [hl] at h
      cases e with
      | returned c r1 =>
        simp only [Option.some.injEq, Prod.mk.injEq] at h
        left
        exact ⟨rfl, by rw [h.1, h.2]⟩
      | left errors r1 =>
        right
        simp only [] at h
        generalize ops.WriteGeneratedSources r1.state = res at h
        obtain ⟨⟨m, e⟩, s⟩ := res
        simp only [] at h
        obtain ⟨r2, hp2, hx2, -⟩ := call_step flags.verbose r1 s
          (Call.WriteGeneratedSources m e) m e rfl rfl
        rw [hp2] at h
        simp only [] at h
        refine ⟨rfl, errors, r1, r2, m, e, rfl, hx2, ?_⟩
        cases e with
        | some e =>
          simp only [Option.isSome_some, if_true, Option.some.injEq, Prod.mk.injEq] at h
          exact Or.inl ⟨by simp, h.1.symm, h.2.symm⟩
        | none =>
          simp only [Option.isSome_none, Bool.false_eq_true, if_false] at h
          right
          by_cases hlen : errors.length > 0
          · simp only [hlen, if_true, Option.some.injEq, Prod.mk.injEq] at h ⊢
            exact ⟨trivial, h.2.symm, h.1.symm⟩
          · simp only [hlen, if_false, Option.some.injEq, Prod.mk.injEq] at h ⊢
            exact ⟨trivial, h.2.symm, h.1.symm⟩

/-! ## Lemmas on the termination of the loop -/

theorem loopBody_completed {σ : Type} (ops : Ops σ) (v : Bool) (tplr : Bool) (r : Run σ)
    (g : Bool) (errors : List GoError) (r2 : Run σ)
    (h : loopBody ops v tplr r = Pass.completed g errors r2) :
    ∃ r4 : Run σ, (∀ R : σ → σ → Prop, LoopFrame ops R → R r.state r4.state) ∧
      errors = (ops.Check r.state).1.1 ∧
      (generateAll ops v (ops.SuggestTypesToGenerate r4.state errors) false r4).2.1 = g ∧
      (generateAll ops v (ops.SuggestTypesToGenerate r4.state errors) false r4).2.2 = r2 := by
  unfold loopBody at h
  simp only [] at h
  have hR1 : ∀ R : σ → σ → Prop, LoopFrame ops R → R r.state (ops.Check r.state).2 :=
    fun R hR => hR.check _
  generalize ops.Check r.state = res1 at hR1 h ⊢
  obtain ⟨⟨errs, cerr⟩, s1⟩ := res1
  simp only [] at hR1 h ⊢
  obtain ⟨r1, hp1, -, hs1⟩ := call_step v r s1 (Call.Check errs cerr) [] cerr rfl rfl
  rw [hp1] at h
  simp only [] at h
  cases cerr with
  | some e => simp at h
  | none =>
    simp only [Option.isSome_none, Bool.false_eq_true, if_false] at h
    by_cases hlen : errs.length = 0
    · simp [hlen] at h
    · simp only [hlen, if_false] at h
      have hR2 : ∀ R : σ → σ → Prop, LoopFrame ops R →
          R r1.state (ops.LoadGeneratePragmas r1.state).2 := fun R hR => hR.pragmas _
      generalize ops.LoadGeneratePragmas r1.state = res2 at hR2 h
      obtain ⟨m2, s2⟩ := res2
      simp only [] at hR2 h
      obtain ⟨r2', hp2, -, hs2⟩ :=
        call_step v r1 s2 (Call.LoadGeneratePragmas m2) m2 none rfl rfl
      rw [hp2] at h
      simp only [Option.isSome_none, Bool.false_eq_true, if_false] at h
      have hR12 : ∀ R : σ → σ → Prop, LoopFrame ops R → R r.state r2'.state := by
        intro R hR
        rw [hs2]
        refine hR.trans _ _ _ (hR1 R hR) ?_
        have := hR2 R hR
        rwa [hs1] at this
      cases tplr with
      | true =>
        simp only [if_true, Bool.false_eq_true, if_false] at h
        cases hg : (generateAll ops v (ops.SuggestTypesToGenerate r2'.state errs) false r2').1 with
        | some code => rw [hg] at h; simp at h
        | none =>
          rw [hg] at h
          simp only [Pass.completed.injEq] at h
          obtain ⟨h1, h2, h3⟩ := h
          subst h2
          exact ⟨r2', hR12, rfl, h1, h3⟩
      | false =>
        simp only [Bool.false_eq_true, if_false] at h
        have hR4 : ∀ R : σ → σ → Prop, LoopFrame ops R →
            R r2'.state (ops.LoadGenerics (ops.NewSpecializer r2'.state)).2 :=
          fun R hR => hR.trans _ _ _ (hR.newSpecializer _) (hR.loadGenerics _)
        generalize ops.LoadGenerics (ops.NewSpecializer r2'.state) = res4 at hR4 h
        obtain ⟨⟨m4, e4⟩, s4⟩ := res4
        simp only [] at hR4 h
        obtain ⟨r4, hp4, -, hs4⟩ :=
          call_step v r2' s4 (Call.LoadGenerics m4 e4) m4 e4 rfl rfl
        rw [hp4] at h
        simp only [] at h
        cases e4 with
        | some e => simp at h
        | none =>
          simp only [Option.isSome_none, Bool.false_eq_true, if_false] at h
          cases hg : (generateAll ops v (ops.SuggestTypesToGenerate r4.state errs) false r4).1 with
          | some code => rw [hg] at h; simp at h
          | none =>
            rw [hg] at h
            simp only [Pass.completed.injEq] at h
            obtain ⟨h1, h2, h3⟩ := h
            subst h2
            refine ⟨r4, ?_, rfl, h1, h3⟩
            intro R hR
            refine hR.trans _ _ _ (hR12 R hR) ?_
            rw [hs4]
            exact hR4 R hR

theorem GenerateCodeForType_keeps (env : Env) (tplr : Specializer) (sig : String) (w : World)
    (n : String) (h : HasGeneratedSource w.pkg n = true) :
    HasGeneratedSource (GenerateCodeForType env tplr sig w).2.pkg n = true := by
  unfold GenerateCodeForType
  simp only []
  split
  · exact h
  · split
    · exact h
    · next packageName source _ =>
      cases hr : (GenerateSource env w.pkg packageName (tplr.fragmentName sig) source).1 with
      | some err =>
        simp only []
        unfold GenerateSource at hr ⊢
        rw [gsaf_error_state env _ _ _ _ _ (by rw [hr]; simp)]
        exact h
      | none =>
        simp only []
        unfold GenerateSource at hr ⊢
        obtain ⟨file, text, -, hq⟩ := gsaf_ok_state env _ _ _ _ _ hr
        rw [hq]
        simp only [HasGeneratedSource, GoMap.set] at h ⊢
        split
        · rfl
        · exact h

theorem GenerateCodeForType_forced (env : Env) (tplr : Specializer) (sig : String) (w : World) :
    (GenerateCodeForType env tplr sig w).2.forced = w.forced := by
  unfold GenerateCodeForType
  simp only []
  split
  · rfl
  · split
    · rfl
    · split <;> rfl

theorem GenerateCodeForType_new (env : Env) (tplr : Specializer) (sig : String) (w : World)
    (h : (GenerateCodeForType env tplr sig w).1.1 ≠ []) :
    (HasGeneratedSource w.pkg (tplr.fragmentName sig) = false ∨
      w.forced (tplr.fragmentName sig) = true) ∧
    HasGeneratedSource (GenerateCodeForType env tplr sig w).2.pkg (tplr.fragmentName sig) = true := by
  unfold GenerateCodeForType at h ⊢
  simp only [] at h ⊢
  by_cases hskip : (HasGeneratedSource w.pkg (tplr.fragmentName sig) &&
      !w.forced (tplr.fragmentName sig)) = true
  · simp [hskip] at h
  · simp only [hskip, if_false] at h ⊢
    have hor : HasGeneratedSource w.pkg (tplr.fragmentName sig) = false ∨
        w.forced (tplr.fragmentName sig) = true := by
      cases h1 : HasGeneratedSource w.pkg (tplr.fragmentName sig) <;>
        cases h2 : w.forced (tplr.fragmentName sig) <;> simp [h1, h2] at hskip ⊢
    refine ⟨hor, ?_⟩
    cases hi : tplr.instantiate sig with
    | none => simp [hi] at h
    | some ps =>
      obtain ⟨packageName, source⟩ := ps
      simp only [hi] at h ⊢
      cases hr : (GenerateSource env w.pkg packageName (tplr.fragmentName sig) source).1 with
      | some err => simp [hr] at h
      | none =>
        simp only [hr] at h ⊢
        unfold GenerateSource at hr ⊢
        obtain ⟨file, text, -, hq⟩ := gsaf_ok_state env _ _ _ _ _ hr
        rw [hq]
        simp [HasGeneratedSource, GoMap.set]

theorem keeps_frame (env : Env) (tplr : Specializer) (ops : Ops World)
    (hgen : ops.GenerateCodeForType = GenerateCodeForType env tplr) (hkept : StoreKept ops) :
    LoopFrame ops Keeps :=
  { refl := fun _ _ h => h
    trans := fun _ _ _ h1 h2 n h => h2 n (h1 n h)
    check := fun w n h => hkept.1 w n h
    pragmas := fun w n h => hkept.2.1 w n h
    newSpecializer := fun w n h => hkept.2.2.1 w n h
    loadGenerics := fun w n h => hkept.2.2.2 w n h
    generate := fun sig w n h => by
      rw [hgen]
      exact GenerateCodeForType_keeps env tplr sig w n h }

theorem inv_frame (ops : Ops World) (inv : World → Prop) (hinv : Invariant ops inv) :
    LoopFrame ops (fun a b => inv a → inv b) :=
  { refl := fun _ h => h
    trans := fun _ _ _ h1 h2 h => h2 (h1 h)
    check := fun w h => hinv.1 w h
    pragmas := fun w h => hinv.2.1 w h
    newSpecializer := fun w h => hinv.2.2.1 w h
    loadGenerics := fun w h => hinv.2.2.2.1 w h
    generate := fun sig w h => hinv.2.2.2.2 sig w h }

/-- A loop over the signatures that sets `generating` registered a name the
fragment store did not have, or regenerated a fragment the store had because a
directive forced it. -/
theorem generateAll_new (env : Env) (tplr : Specializer) (ops : Ops World) (names : List String)
    (inv : World → Prop)
    (hgen : ops.GenerateCodeForType = GenerateCodeForType env tplr) (hkept : StoreKept ops)
    (hinv : Invariant ops inv)
    (v : Bool) (sigs : List String) (g : Bool) (r : Run World)
    (hr : inv r.state)
    (hsigs : ∀ sig ∈ sigs, tplr.fragmentName sig ∈ names)
    (h : (generateAll ops v sigs g r).2.1 = true) :
    g = true ∨
    (∃ n ∈ names, HasGeneratedSource r.state.pkg n = false ∧
      HasGeneratedSource (generateAll ops v sigs g r).2.2.state.pkg n = true) ∨
    (∃ w, inv w ∧ ∃ n ∈ names, w.forced n = true ∧ HasGeneratedSource w.pkg n = true) := by
  induction sigs generalizing g r with
  | nil =>
    left
    simpa [generateAll] using h
  | cons sig sigs ih =>
    have hframe := keeps_frame env tplr ops hgen hkept
    have hnew := GenerateCodeForType_new env tplr sig r.state
    have hkeep := GenerateCodeForType_keeps env tplr sig r.state
    have hinv1 := hinv.2.2.2.2 sig r.state hr
    rw [← hgen] at hnew hkeep
    simp only [generateAll] at h ⊢
    generalize ops.GenerateCodeForType sig r.state = res at hnew hkeep hinv1 h ⊢
    obtain ⟨⟨m, e⟩, s⟩ := res
    simp only [] at hnew hkeep hinv1 h ⊢
    have hstate := printedError_state v m e
      { r with state := s, calls := r.calls ++ [Call.GenerateCodeForType sig m e] }
    simp only [] at hstate
    rw [printedError_fst] at h ⊢
    generalize (printedError v m e
      { r with state := s, calls := r.calls ++ [Call.GenerateCodeForType sig m e] }).2 = r1
      at hstate h ⊢
    cases e with
    | some e =>
      simp only [Option.isSome_some, if_true] at h ⊢
      exact Or.inl h
    | none =>
      simp only [Option.isSome_none, Bool.false_eq_true, if_false] at h ⊢
      obtain ⟨-, -, -, -, -, hR⟩ := generateAll_spec ops v sigs (g || decide (m.length > 0)) r1
      have hmono := hR Keeps hframe
      have hr1 : inv r1.state := by rw [hstate]; exact hinv1
      rcases ih (g || decide (m.length > 0)) r1 hr1
        (fun sig hs => hsigs sig (List.mem_cons_of_mem _ hs)) h with
        hg | ⟨n, hn, h1, h2⟩ | hforced
      · simp only [Bool.or_eq_true, decide_eq_true_eq] at hg
        rcases hg with hg | hg
        · exact Or.inl hg
        · have hm : m ≠ [] := List.length_pos.1 hg
          obtain ⟨ha, hb⟩ := hnew hm
          cases hh : HasGeneratedSource r.state.pkg (tplr.fragmentName sig) with
          | false =>
            right; left
            refine ⟨_, hsigs sig (List.mem_cons_self _ _), hh, ?_⟩
            apply hmono
            rw [hstate]
            exact hb
          | true =>
            right; right
            rcases ha with ha | ha
            · rw [hh] at ha
              simp at ha
            · exact ⟨r.state, hr, _, hsigs sig (List.mem_cons_self _ _), ha, hh⟩
      · right; left
        refine ⟨n, hn, ?_, h2⟩
        rw [hstate] at h1
        cases hh : HasGeneratedSource r.state.pkg n with
        | false => rfl
        | true =>
          rw [hkeep n hh] at h1
          simp at h1
      · exact Or.inr (Or.inr hforced)

theorem missingNames_lt (names : List String) (w w2 : World) (hk : Keeps w w2)
    (hnew : ∃ n ∈ names, HasGeneratedSource w.pkg n = false ∧ HasGeneratedSource w2.pkg n = true) :
    (missingNames names w2).card < (missingNames names w).card := by
  apply Finset.card_lt_card
  obtain ⟨n, hn, h1, h2⟩ := hnew
  rw [Finset.ssubset_iff_of_subset]
  · refine ⟨n, ?_, ?_⟩
    · simp [missingNames, hn, h1]
    · simp [missingNames, h2]
  · intro x hx
    simp only [missingNames, Finset.mem_filter, List.mem_toFinset] at hx ⊢
    refine ⟨hx.1, ?_⟩
    cases hh : HasGeneratedSource w.pkg x with
    | false => rfl
    | true =>
      have := hk x hh
      rw [hx.2] at this
      simp at this

theorem missingNames_le (names : List String) (w : World) :
    (missingNames names w).card ≤ names.toFinset.card :=
  Finset.card_le_card (Finset.filter_subset _ _)

theorem checks_pass (calls ext : List Call) (errs : List GoError) (cerr : Option GoError)
    (h : ∀ c ∈ ext, c.inLoop = true ∧ c.isCheck = false) :
    checks (calls ++ Call.Check errs cerr :: ext) = checks calls + 1 := by
  unfold checks
  rw [List.countP_append, List.countP_cons]
  have : List.countP Call.isCheck ext = 0 := by
    rw [List.countP_eq_zero]
    intro c hc
    simp [(h c hc).2]
  rw [this]
  simp [Call.isCheck]

/-- The pass of the loop that goes on registered a name, or regenerated a
fragment a directive forced. -/
theorem loopBody_registers (env : Env) (tplr : Specializer) (ops : Ops World) (names : List String)
    (inv : World → Prop)
    (hgen : ops.GenerateCodeForType = GenerateCodeForType env tplr) (hkept : StoreKept ops)
    (hinv : Invariant ops inv)
    (hnames : ∀ w, inv w → ∀ w2, ∀ sig ∈ ops.SuggestTypesToGenerate w2 (ops.Check w).1.1,
      tplr.fragmentName sig ∈ names)
    (v : Bool) (t : Bool) (r : Run World) (hr : inv r.state) (errors : List GoError)
    (r2 : Run World)
    (h : loopBody ops v t r = Pass.completed true errors r2) :
    (∃ n ∈ names, HasGeneratedSource r.state.pkg n = false ∧
      HasGeneratedSource r2.state.pkg n = true) ∨
    (∃ w, inv w ∧ ∃ n ∈ names, w.forced n = true ∧ HasGeneratedSource w.pkg n = true) := by
  obtain ⟨r4, hR, herrs, hg, hr2⟩ := loopBody_completed ops v t r true errors r2 h
  have hframe := keeps_frame env tplr ops hgen hkept
  have hr4 : inv r4.state := hR _ (inv_frame ops inv hinv) hr
  have hsigs : ∀ sig ∈ ops.SuggestTypesToGenerate r4.state errors,
      tplr.fragmentName sig ∈ names := by
    rw [herrs]
    exact hnames r.state hr r4.state
  rcases generateAll_new env tplr ops names inv hgen hkept hinv v _ false r4 hr4 hsigs hg with
    h0 | ⟨n, hn, h1, h2⟩ | hforced
  · simp at h0
  · left
    rw [hr2] at h2
    refine ⟨n, hn, ?_, h2⟩
    cases hh : HasGeneratedSource r.state.pkg n with
    | false => rfl
    | true =>
      rw [hR Keeps hframe n hh] at h1
      simp at h1
  · exact Or.inr hforced

theorem synthesisLoop_fuel (env : Env) (tplr : Specializer) (ops : Ops World) (names : List String)
    (inv : World → Prop)
    (hgen : ops.GenerateCodeForType = GenerateCodeForType env tplr) (hkept : StoreKept ops)
    (hinv : Invariant ops inv)
    (hnames : ∀ w, inv w → ∀ w2, ∀ sig ∈ ops.SuggestTypesToGenerate w2 (ops.Check w).1.1,
      tplr.fragmentName sig ∈ names)
    (hunforced : ∀ w, inv w → ∀ n ∈ names, HasGeneratedSource w.pkg n = true → w.forced n = false)
    (v : Bool) (fuel : Nat) (t : Bool) (r : Run World) (hr : inv r.state)
    (hfuel : (missingNames names r.state).card < fuel) :
    ∃ e, synthesisLoop ops v fuel t r = some e ∧
      checks e.run.calls ≤ checks r.calls + (missingNames names r.state).card + 1 := by
  induction fuel generalizing t r with
  | zero => omega
  | succ fuel ih =>
    obtain ⟨errs, cerr, ext, hx, hin, hR, -⟩ := loopBody_spec ops v t r
    have hframe := keeps_frame env tplr ops hgen hkept
    have hchecks : checks (loopBody ops v t r).run.calls = checks r.calls + 1 := by
      rw [hx.1]
      exact checks_pass _ _ _ _ hin
    simp only [synthesisLoop]
    cases hb : loopBody ops v t r with
    | returned code r1 =>
      rw [hb] at hchecks
      refine ⟨_, rfl, ?_⟩
      simp only [LoopEnd.run, Pass.run] at hchecks ⊢
      omega
    | broke errors r1 =>
      rw [hb] at hchecks
      refine ⟨_, rfl, ?_⟩
      simp only [LoopEnd.run, Pass.run] at hchecks ⊢
      omega
    | completed g errors r1 =>
      rw [hb] at hchecks hR
      simp only [Pass.run] at hchecks hR
      cases g with
      | false =>
        refine ⟨_, rfl, ?_⟩
        simp only [LoopEnd.run]
        omega
      | true =>
        simp only [if_true]
        have hr1 : inv r1.state := hR _ (inv_frame ops inv hinv) hr
        have hnew : ∃ n ∈ names, HasGeneratedSource r.state.pkg n = false ∧
            HasGeneratedSource r1.state.pkg n = true := by
          rcases loopBody_registers env tplr ops names inv hgen hkept hinv hnames v t r hr
            errors r1 hb with hn | ⟨w, hw, n, hn, hf, hh⟩
          · exact hn
          · rw [hunforced w hw n hn hh] at hf
            simp at hf
        have hlt := missingNames_lt names r.state r1.state (hR Keeps hframe) hnew
        obtain ⟨e, he, hle⟩ := ih true r1 hr1 (by omega)
        exact ⟨e, he, by omega⟩

/-! ## Properties of the fragment store -/

/-- C1. `GenerateSourceAppendFile` commits no partial merge: when writing back
the existing file, the import fixer or the reparse returns the error `e`, the
call returns `e` itself and the package (its fileset and its fragment store)
is the one before the call. -/
theorem GenerateSourceAppendFile_no_half_merge (env : Env) (p : Package) (filename : Template)
    (packageName name source : String) (e : GoError)
    (hfail :
      (∃ file, p.fileset (destPath env p filename packageName name) = some file ∧
        env.WriteFile p file = .error e) ∨
      (∃ pre, bufferStart env p (destPath env p filename packageName name) = .ok pre ∧
        env.Process (pre ++ ("\n" ++ env.jigName ++ " " ++ name ++ "\n\n" ++ source)) = .error e) ∨
      (∃ pre fixed, bufferStart env p (destPath env p filename packageName name) = .ok pre ∧
        env.Process (pre ++ ("\n" ++ env.jigName ++ " " ++ name ++ "\n\n" ++ source)) = .ok fixed ∧
        env.ParseFile (destPath env p filename packageName name) fixed = .error e)) :
    (GenerateSourceAppendFile env p filename packageName name source).1 = some e ∧
    (GenerateSourceAppendFile env p filename packageName name source).2.fileset = p.fileset ∧
    (GenerateSourceAppendFile env p filename packageName name source).2.generated = p.generated ∧
    (GenerateSourceAppendFile env p filename packageName name source).2 = p := by
  have key : GenerateSourceAppendFile env p filename packageName name source = (some e, p) := by
    rcases hfail with ⟨file, hf, hw⟩ | ⟨pre, hs, hp⟩ | ⟨pre, fixed, hs, hp, hq⟩
    · apply gsaf_error_start
      unfold bufferStart
      rw [hf]
      exact hw
    · rw [gsaf_ok_start env p filename packageName name source pre hs, hp]
    · rw [gsaf_ok_start env p filename packageName name source pre hs, hp]
      simp only []
      rw [hq]
  rw [key]
  exact ⟨rfl, rfl, rfl, rfl⟩

/-- C2. When `GenerateSourceAppendFile` returns nil, the fragment store is the
one before with `name` mapped to the resolved destination path: `Dir` joined
with the filename template executed on the two casings of the package name and
of the name. The mapping of every other name is unchanged and
`HasGeneratedSource(name)` holds. -/
theorem GenerateSourceAppendFile_records_name (env : Env) (p : Package) (filename : Template)
    (packageName name source : String)
    (hok : (GenerateSourceAppendFile env p filename packageName name source).1 = none) :
    let path := env.Join p.Dir (filename.Execute (GoMap.ofList
      [ ("Package", env.Title packageName), ("package", env.ToLower packageName),
        ("Name", env.Title name), ("name", env.ToLower name) ]))
    let q := (GenerateSourceAppendFile env p filename packageName name source).2
    q.generated = p.generated.set name path ∧
    q.generated name = some path ∧
    (∀ other, other ≠ name → q.generated other = p.generated other) ∧
    HasGeneratedSource q name = true := by
  obtain ⟨file, text, -, hq⟩ := gsaf_ok_state env p filename packageName name source hok
  simp only [hq]
  refine ⟨rfl, ?_, ?_, ?_⟩
  · exact GoMap.set_same _ _ _
  · intro other ho
    exact GoMap.set_other _ _ _ _ ho
  · simp [HasGeneratedSource, GoMap.set, destPath]

/-- C3. The text handed to the import fixer is
`start ++ "\n" ++ marker ++ " " ++ name ++ "\n\n" ++ source`, where `start` is the existing file
of the destination path written back, or for an unknown path the banner, the
regenerate hint and the package clause, each followed by a blank line: the
call depends on the import fixer through its result on that text alone, an
error on that text is the result of the call, and the fixed text is what is
reparsed and stored. -/
theorem GenerateSourceAppendFile_import_fixer_text (env : Env) (p : Package) (filename : Template)
    (packageName name source : String) (start : String)
    (hstart :
      (∃ file, p.fileset (destPath env p filename packageName name) = some file ∧
        env.WriteFile p file = .ok start) ∨
      (p.fileset (destPath env p filename packageName name) = none ∧
        start = "// Code generated by jig; DO NOT EDIT." ++ "\n\n" ++
          "//go:generate jig --regen" ++ "\n\n" ++ "package " ++ p.Name ++ "\n\n")) :
    let text := start ++ "\n" ++ env.jigName ++ " " ++ name ++ "\n\n" ++ source
    (∀ fixer : String → Except GoError String, fixer text = env.Process text →
      GenerateSourceAppendFile { env with Process := fixer } p filename packageName name source =
        GenerateSourceAppendFile env p filename packageName name source) ∧
    (∀ e, env.Process text = .error e →
      GenerateSourceAppendFile env p filename packageName name source = (some e, p)) ∧
    (∀ fixed file, env.Process text = .ok fixed →
      env.ParseFile (destPath env p filename packageName name) fixed = .ok file →
      (GenerateSourceAppendFile env p filename packageName name source).1 = none ∧
      (GenerateSourceAppendFile env p filename packageName name source).2.fileset
        (env.Filepath file) = some file) := by
  have hs : bufferStart env p (destPath env p filename packageName name) = .ok start := by
    unfold bufferStart
    rcases hstart with ⟨file, hf, hw⟩ | ⟨hf, rfl⟩
    · rw [hf]; exact hw
    · rw [hf]; simp [header, String.append_assoc]
  have htext : start ++ "\n" ++ env.jigName ++ " " ++ name ++ "\n\n" ++ source =
      start ++ ("\n" ++ env.jigName ++ " " ++ name ++ "\n\n" ++ source) := by
    simp [String.append_assoc]
  intro text
  have htext' : text = start ++ ("\n" ++ env.jigName ++ " " ++ name ++ "\n\n" ++ source) := htext
  refine ⟨?_, ?_, ?_⟩
  · intro fixer hfix
    have hs' : bufferStart { env with Process := fixer } p
        (destPath { env with Process := fixer } p filename packageName name) = .ok start := hs
    rw [gsaf_ok_start env p filename packageName name source start hs,
      gsaf_ok_start { env with Process := fixer } p filename packageName name source start hs']
    simp only []
    rw [← htext', hfix]
    rfl
  · intro e he
    rw [gsaf_ok_start env p filename packageName name source start hs, ← htext', he]
  · intro fixed file hp hq
    rw [gsaf_ok_start env p filename packageName name source start hs, ← htext', hp]
    simp only []
    rw [hq]
    simp [AddFile, GoMap.set]

/-- C4. `ScanForGeneratedSources` is total and updates the state by the markers
of the file: a name recorded by a comment that starts with the marker keyword
and matches the pattern with the keyword as key is mapped to the path of the
file, and that path to the file; the entry of every other name and of every
other path is unchanged; a file none of whose comments passes the three tests
(a comment may start with the keyword and still not match) leaves the package
unchanged. -/
theorem ScanForGeneratedSources_records_markers (env : Env) (p : Package) (file : File) :
    let q := ScanForGeneratedSources env p file
    (∀ n, (∃ g ∈ file.Comments, ∃ c ∈ g.List, markerName env c = some n) →
      q.generated n = some (env.Filepath file) ∧ q.fileset (env.Filepath file) = some file) ∧
    (∀ n, (¬ ∃ g ∈ file.Comments, ∃ c ∈ g.List, markerName env c = some n) →
      q.generated n = p.generated n) ∧
    (∀ k, k ≠ env.Filepath file → q.fileset k = p.fileset k) ∧
    ((∀ g ∈ file.Comments, ∀ c ∈ g.List,
        HasPrefix c.Text env.jigName = false ∨ (env.FindStringSubmatch c.Text).length ≠ 3 ∨
          (env.FindStringSubmatch c.Text).getD 1 "" ≠ env.jigName) → q = p) := by
  obtain ⟨hg, hf, hd, hn, ho, ht⟩ := scan_spec env p file
  refine ⟨?_, ?_, ?_, ?_⟩
  · intro n hex
    constructor
    · rw [hg n, if_pos hex]
    · rw [hf (env.Filepath file), if_pos]
      obtain ⟨g, hgm, c, hc, hm⟩ := hex
      exact ⟨rfl, g, hgm, c, hc, by rw [hm]; rfl⟩
  · intro n hex
    rw [hg n, if_neg hex]
  · intro k hk
    rw [hf k, if_neg (fun h => hk h.1)]
  · intro hall
    have hnone : ∀ g ∈ file.Comments, ∀ c ∈ g.List, markerName env c = none := by
      intro g hgm c hc
      unfold markerName
      rcases hall g hgm c hc with h | h | h
      · simp [h]
      · simp only [h, false_and, and_false, if_false]
      · simp only [h, and_false, if_false]
    apply Package.ext_fields _ _ hd hn ho ht
    · intro k
      rw [hf k, if_neg]
      rintro ⟨-, g, hgm, c, hc, hm⟩
      rw [hnone g hgm c hc] at hm
      simp at hm
    · intro n
      rw [hg n, if_neg]
      rintro ⟨g, hgm, c, hc, hm⟩
      rw [hnone g hgm c hc] at hm
      simp at hm

/-- C10. Every fragment is backed by a buffered file: the predicate holds for a
package with an empty fragment store and, given that a reparsed file is
registered under the path it was parsed with, it is preserved by
`ScanForGeneratedSources` and by every call of `GenerateSourceAppendFile`,
whether the call returns nil or an error. -/
theorem fragments_backed_by_files (env : Env) (p : Package) (hinv : Backed p)
    (hpath : ∀ path src file, env.ParseFile path src = .ok file → env.Filepath file = path) :
    (∀ q : Package, q.generated = GoMap.empty → Backed q) ∧
    (∀ file, Backed (ScanForGeneratedSources env p file)) ∧
    (∀ filename packageName name source,
      Backed (GenerateSourceAppendFile env p filename packageName name source).2) := by
  refine ⟨?_, ?_, ?_⟩
  · intro q hq n path h
    rw [hq] at h
    simp [GoMap.empty] at h
  · intro file n path h
    obtain ⟨hg, hf, -⟩ := scan_spec env p file
    rw [hg n] at h
    rw [hf path]
    by_cases hex : ∃ g ∈ file.Comments, ∃ c ∈ g.List, markerName env c = some n
    · rw [if_pos hex] at h
      simp only [Option.some.injEq] at h
      obtain ⟨g, hgm, c, hc, hm⟩ := hex
      rw [if_pos ⟨h.symm, g, hgm, c, hc, by rw [hm]; rfl⟩]
      rfl
    · rw [if_neg hex] at h
      have := hinv n path h
      split
      · rfl
      · exact this
  · intro filename packageName name source
    cases hr : (GenerateSourceAppendFile env p filename packageName name source).1 with
    | some e =>
      rw [gsaf_error_state env p filename packageName name source (by rw [hr]; simp)]
      exact hinv
    | none =>
      obtain ⟨file, text, hparse, hq⟩ := gsaf_ok_state env p filename packageName name source hr
      rw [hq]
      have hfp := hpath _ _ _ hparse
      intro n path h
      simp only [GoMap.set] at h ⊢
      by_cases hn : n = name
      · simp only [hn, if_true, Option.some.injEq] at h
        rw [hfp, ← h]
        simp
      · simp only [hn, if_false] at h
        have := hinv n path h
        split
        · rfl
        · exact this

/-- Witness of C1: the import fixer rejects a fragment whose braces do not balance. -/
theorem GenerateSourceAppendFile_no_half_merge_witness :
    (GenerateSourceAppendFile exampleEnv (emptyPackage sharedTemplate) sharedTemplate
      "main" "T" "type T struct \x7b").1 = some "unbalanced braces" ∧
    (GenerateSourceAppendFile exampleEnv (emptyPackage sharedTemplate) sharedTemplate
      "main" "T" "type T struct \x7b").2.fileset = (emptyPackage sharedTemplate).fileset ∧
    (GenerateSourceAppendFile exampleEnv (emptyPackage sharedTemplate) sharedTemplate
      "main" "T" "type T struct \x7b").2.generated = (emptyPackage sharedTemplate).generated ∧
    (GenerateSourceAppendFile exampleEnv (emptyPackage sharedTemplate) sharedTemplate
      "main" "T" "type T struct \x7b").2 = emptyPackage sharedTemplate :=
  GenerateSourceAppendFile_no_half_merge exampleEnv (emptyPackage sharedTemplate)
    sharedTemplate "main" "T" "type T struct \x7b" "unbalanced braces"
    (Or.inr (Or.inl ⟨header "main", rfl, rfl⟩))

/-- Witness of C2: the first fragment of a package goes to `jig.go`. -/
theorem GenerateSourceAppendFile_records_name_witness :
    (GenerateSourceAppendFile exampleEnv (emptyPackage sharedTemplate) sharedTemplate
      "main" "StackInt" "type StackInt []int\n").2.generated "StackInt" = some "jig.go" ∧
    HasGeneratedSource (GenerateSourceAppendFile exampleEnv (emptyPackage sharedTemplate)
      sharedTemplate "main" "StackInt" "type StackInt []int\n").2 "StackInt" = true :=
  have h := GenerateSourceAppendFile_records_name exampleEnv (emptyPackage sharedTemplate)
    sharedTemplate "main" "StackInt" "type StackInt []int\n" (by decide)
  ⟨h.2.1, h.2.2.2⟩

/-- Witness of C3: a fragment for a path the fileset does not know. -/
theorem GenerateSourceAppendFile_import_fixer_text_witness :
    GenerateSourceAppendFile exampleEnv (emptyPackage sharedTemplate) sharedTemplate
      "main" "T" "type T struct \x7b" = (some "unbalanced braces", emptyPackage sharedTemplate) :=
  (GenerateSourceAppendFile_import_fixer_text exampleEnv (emptyPackage sharedTemplate)
    sharedTemplate "main" "T" "type T struct \x7b"
    "// Code generated by jig; DO NOT EDIT.\n\n//go:generate jig --regen\n\npackage main\n\n"
    (Or.inr ⟨rfl, by decide⟩)).2.1 "unbalanced braces" rfl

/-- Witness of C10: the package after the first fragment. -/
theorem fragments_backed_by_files_witness :
    Backed (GenerateSourceAppendFile exampleEnv (emptyPackage sharedTemplate) sharedTemplate
      "main" "StackInt" "type StackInt []int\n").2 :=
  (fragments_backed_by_files exampleEnv (emptyPackage sharedTemplate)
    (fun _ _ h => by simp [emptyPackage, GoMap.empty] at h)
    (fun _ _ _ h => by
      simp only [exampleEnv, Except.ok.injEq] at h
      rw [← h]
      rfl)).2.2 sharedTemplate "main" "StackInt" "type StackInt []int\n"

theorem GoMap.set_set {V : Type} (m : GoMap V) (k : String) (v : V) :
    (m.set k v).set k v = m.set k v := by
  funext k'
  simp only [GoMap.set]
  split <;> rfl

theorem GoMap.set_eq_self {V : Type} (m : GoMap V) (k : String) (v : V) (h : m k = some v) :
    m.set k v = m := by
  funext k'
  simp only [GoMap.set]
  split
  · next hk => rw [hk, h]
  · rfl

theorem destPath_congr (env : Env) (p q : Package) (filename : Template) (packageName name : String)
    (h : q.Dir = p.Dir) :
    destPath env q filename packageName name = destPath env p filename packageName name := by
  simp [destPath, h]

/-- C6, counterexample. The fragment `StackInt` is present in `jig.go`;
`GenerateSource` for `StackInt` returns nil and replaces the file `jig.go` of
the fileset by one that holds the fragment twice. -/
theorem GenerateSource_present_not_noop :
    HasGeneratedSource stackIntPackage "StackInt" = true ∧
    (GenerateSource exampleEnv stackIntPackage "main" "StackInt" "type StackInt []int\n").1 = none ∧
    stackIntPackage.fileset "jig.go" = some stackIntFile ∧
    (GenerateSource exampleEnv stackIntPackage "main" "StackInt" "type StackInt []int\n").2.fileset
        "jig.go" ≠ stackIntPackage.fileset "jig.go" ∧
    ((GenerateSource exampleEnv stackIntPackage "main" "StackInt" "type StackInt []int\n").2.fileset
        "jig.go").map (fun f => f.Decls) =
      some ("// Code generated by jig; DO NOT EDIT.\n\n//go:generate jig --regen\n\npackage main\n\n\n//jig:name StackInt\n\ntype StackInt []int\n" ++
        "\n//jig:name StackInt\n\ntype StackInt []int\n") := by
  refine ⟨by decide, by decide, by decide, by decide, by decide⟩

/-- C6, amended. `GenerateSource` does not consult `HasGeneratedSource`. Called
for a name that is present and returning nil, it leaves the set of names of
the fragment store unchanged, and the fragment store itself when the name was
mapped to the resolved destination path, so generating a fragment a second
time gives the fragment store of generating it once; the fileset entry of the
reparsed file is replaced by the reparse of the text with the fragment
appended once more. -/
theorem GenerateSource_present_fragment (env : Env) (p : Package)
    (packageName name source : String)
    (hpresent : HasGeneratedSource p name = true)
    (hok : (GenerateSource env p packageName name source).1 = none) :
    let q := (GenerateSource env p packageName name source).2
    (∀ n, HasGeneratedSource q n = HasGeneratedSource p n) ∧
    (p.generated name = some (destPath env p p.filename packageName name) →
      q.generated = p.generated) ∧
    (∀ source2, (GenerateSource env q packageName name source2).1 = none →
      (GenerateSource env q packageName name source2).2.generated = q.generated) ∧
    (∃ start fixed file,
      bufferStart env p (destPath env p p.filename packageName name) = .ok start ∧
      env.Process (start ++ ("\n" ++ env.jigName ++ " " ++ name ++ "\n\n" ++ source)) = .ok fixed ∧
      env.ParseFile (destPath env p p.filename packageName name) fixed = .ok file ∧
      q.fileset = p.fileset.set (env.Filepath file) file) := by
  unfold GenerateSource at hok ⊢
  obtain ⟨file, text, hparse, hq⟩ := gsaf_ok_state env p p.filename packageName name source hok
  intro q
  have hq' : q = { p with
      fileset := p.fileset.set (env.Filepath file) file
      generated := p.generated.set name (destPath env p p.filename packageName name) } := hq
  refine ⟨?_, ?_, ?_, ?_⟩
  · intro n
    rw [hq']
    simp only [HasGeneratedSource, GoMap.set] at hpresent ⊢
    by_cases hn : n = name
    · simp [hn, hpresent]
    · simp [hn]
  · intro h
    rw [hq']
    exact GoMap.set_eq_self _ _ _ h
  · intro source2 hok2
    obtain ⟨file2, text2, -, hq2⟩ :=
      gsaf_ok_state env q q.filename packageName name source2 hok2
    rw [hq2]
    have hd : destPath env q q.filename packageName name =
        destPath env p p.filename packageName name := by
      rw [hq']; rfl
    rw [hd]
    simp only [hq']
    exact GoMap.set_set _ _ _
  · cases hs : bufferStart env p (destPath env p p.filename packageName name) with
    | error e =>
      rw [gsaf_error_start env p p.filename packageName name source e hs] at hok
      simp at hok
    | ok start =>
      have hrun := gsaf_ok_start env p p.filename packageName name source start hs
      rw [hrun] at hok
      cases hp : env.Process (start ++ ("\n" ++ env.jigName ++ " " ++ name ++ "\n\n" ++ source)) with
      | error e => rw [hp] at hok; simp at hok
      | ok fixed =>
        rw [hp] at hok
        simp only [] at hok
        cases hf : env.ParseFile (destPath env p p.filename packageName name) fixed with
        | error e => rw [hf] at hok; simp at hok
        | ok file1 =>
          refine ⟨start, fixed, file1, rfl, hp, hf, ?_⟩
          show (GenerateSourceAppendFile env p p.filename packageName name source).2.fileset = _
          rw [hrun, hp]
          simp only []
          rw [hf]
          rfl

/-- Witness of C6 as amended: the package in which `StackInt` is present. -/
theorem GenerateSource_present_fragment_witness :
    (GenerateSource exampleEnv stackIntPackage "main" "StackInt" "type StackInt []int\n").2.generated =
      stackIntPackage.generated :=
  (GenerateSource_present_fragment exampleEnv stackIntPackage "main" "StackInt"
    "type StackInt []int\n" (by decide) (by decide)).2.1 (by decide)

/-- C7. The doc comment of `GenerateSource` says that every source fragment is
written to its own file; the code does not do so. The names `Foo` and `foo`
are distinct and have the same two casings, so with a filename template that
uses both casings of the name `GenerateSource` resolves the same path for
both, and after both calls the one file of the fileset holds both fragments. -/
theorem GenerateSource_shared_path :
    "Foo" ≠ "foo" ∧
    destPath exampleEnv (emptyPackage perNameTemplate) perNameTemplate "rx" "Foo" = "rx_Foo_foo.go" ∧
    destPath exampleEnv (emptyPackage perNameTemplate) perNameTemplate "rx" "foo" = "rx_Foo_foo.go" ∧
    (GenerateSource exampleEnv
      (GenerateSource exampleEnv (emptyPackage perNameTemplate) "rx" "Foo" "type Foo int\n").2
      "rx" "foo" "type foo int\n").2.generated "Foo" = some "rx_Foo_foo.go" ∧
    (GenerateSource exampleEnv
      (GenerateSource exampleEnv (emptyPackage perNameTemplate) "rx" "Foo" "type Foo int\n").2
      "rx" "foo" "type foo int\n").2.generated "foo" = some "rx_Foo_foo.go" ∧
    ((GenerateSource exampleEnv
      (GenerateSource exampleEnv (emptyPackage perNameTemplate) "rx" "Foo" "type Foo int\n").2
      "rx" "foo" "type foo int\n").2.fileset "rx_Foo_foo.go").map (fun f => f.Decls) =
      some "// Code generated by jig; DO NOT EDIT.\n\n//go:generate jig --regen\n\npackage main\n\n\n//jig:name Foo\n\ntype Foo int\n\n//jig:name foo\n\ntype foo int\n" := by
  refine ⟨by decide, by decide, by decide, by decide, by decide, by decide⟩

/-! ## Properties of `jigMain` -/

theorem Extends.calls_init {σ : Type} {v : Bool} {s : σ} {r : Run σ} {ext : List Call}
    (h : Extends v (Run.init s) r ext) :
    r.calls = ext ∧ r.stdout = (if v then ext.flatMap Call.messages else []) ∧
      r.stderr = ext.filterMap Call.err := by
  obtain ⟨a, b, c⟩ := h
  simp only [Run.init, List.nil_append] at a b c
  exact ⟨a, b, c⟩

/-- C5, counterexample. A run without flags on a directory that holds the
generated file `jig.go` of an earlier run: the file is removed before the
loop, the merge of `QueueInt` fails, the run returns 1, and `jig.go` is gone. -/
theorem jigMain_regen_failure_changes_disk :
    generatedWorld.disk "jig.go" = some stackIntText ∧
    (jigMain (exampleOps exampleLibrary ["StackInt", "QueueInt"] []) defaultFlags 5
        generatedWorld).map (fun x => (x.1, x.2.calls)) =
      some (1,
        [Call.ParseDir none,
         Call.RemoveGeneratedSources [] none,
         Call.Check ["undefined: StackInt", "undefined: QueueInt"] none,
         Call.LoadGeneratePragmas [],
         Call.LoadGenerics [] none,
         Call.GenerateCodeForType "StackInt" ["generating StackInt"] none,
         Call.GenerateCodeForType "QueueInt" [] (some "unbalanced braces")]) ∧
    (jigMain (exampleOps exampleLibrary ["StackInt", "QueueInt"] []) defaultFlags 5
        generatedWorld).map (fun x => x.2.state.disk "jig.go") = some none := by
  refine ⟨by decide, by decide, by decide⟩

/-- C5, amended. In a run of `jigMain` in which a `GenerateCodeForType` call of
the synthesis loop fails, the run returns 1 and `WriteGeneratedSources` is not
called; given that no operation other than `RemoveGeneratedSources` and
`WriteGeneratedSources` changes the files on disk, the files are those before
the run when only missing code is generated (`--missing` without `--regen`),
and otherwise those `RemoveGeneratedSources` left before the loop. -/
theorem jigMain_failed_merge_no_flush {σ D : Type} (ops : Ops σ) (disk : σ → D) (flags : Flags)
    (fuel : Nat) (s0 : σ) (code : Int) (r : Run σ)
    (hdisk : DiskUntouched ops disk)
    (hrun : jigMain ops flags fuel s0 = some (code, r))
    (hfail : ∃ sig m e, Call.GenerateCodeForType sig m (some e) ∈ r.calls) :
    code = 1 ∧
    (∀ m e, Call.WriteGeneratedSources m e ∉ r.calls) ∧
    (flags.missing = true ∧ flags.forceregen = false → disk r.state = disk s0) ∧
    (¬ (flags.missing = true ∧ flags.forceregen = false) →
      disk r.state = disk (ops.RemoveGeneratedSources (parsedState ops flags s0)).2) := by
  obtain ⟨sig, m, e, hmem⟩ := hfail
  obtain ⟨hd1, hd2, hd3, hd4, hd5, hd6, hd7, hd8⟩ := hdisk
  have hframe : LoopFrame ops (fun a b => disk b = disk a) :=
    { refl := fun _ => rfl
      trans := fun _ _ _ h1 h2 => h2.trans h1
      check := hd4
      pragmas := hd5
      newSpecializer := hd6
      loadGenerics := hd7
      generate := hd8 }
  obtain ⟨pext, hpx, hpmem, hpnone, hpsome, hpstate⟩ := prepare_spec ops flags s0
  obtain ⟨hpcalls, -, -⟩ := hpx.calls_init
  have hparsed : disk (parsedState ops flags s0) = disk s0 := by
    unfold parsedState
    rw [hd3, hd2, hd1]
  have hnotpre : ∀ c ∈ pext, c ≠ Call.GenerateCodeForType sig m (some e) ∧
      ∀ m2 e2, c ≠ Call.WriteGeneratedSources m2 e2 := by
    intro c hc
    rcases hpmem c hc with ⟨e1, h⟩ | ⟨m1, e1, h⟩ <;> (rw [h]; simp)
  rcases jigMain_cases ops flags fuel s0 code r hrun with
    ⟨-, hr⟩ | ⟨hpre, hloop⟩ | ⟨hpre, errors, r1, r2, m2, e2, hloop, hx2, hend⟩
  · rw [hr, hpcalls] at hmem
    exact absurd rfl (hnotpre _ hmem).1
  · obtain ⟨ext, hx, hin, hR, hm⟩ := synthesisLoop_spec ops flags.verbose fuel false _ _ hloop
    simp only [LoopEnd.run] at hx hR hm
    have hcalls : r.calls = pext ++ ext := by rw [hx.1, hpcalls]
    have hstate := hR _ hframe
    simp only [] at hstate
    refine ⟨hm.1, ?_, ?_, ?_⟩
    · intro m2 e2 hw
      rw [hcalls] at hw
      rcases List.mem_append.1 hw with hw | hw
      · exact absurd rfl ((hnotpre _ hw).2 m2 e2)
      · have := hin _ hw
        simp [Call.inLoop] at this
    · intro hmf
      rw [hstate, ((hpstate hpre).1 hmf).1, hparsed]
    · intro hmf
      rw [hstate, (hpstate hpre).2 hmf]
  · exfalso
    obtain ⟨ext, hx, hin, hR, hm⟩ := synthesisLoop_spec ops flags.verbose fuel false _ _ hloop
    simp only [LoopEnd.run] at hx hR hm
    have hcalls2 : r2.calls = pext ++ ext ++ [Call.WriteGeneratedSources m2 e2] := by
      rw [hx2.1, hx.1, hpcalls]
    have hcalls : r.calls = pext ++ ext ++ [Call.WriteGeneratedSources m2 e2] := by
      rcases hend with ⟨-, -, hr⟩ | ⟨-, hr, -⟩
      · rw [hr, hcalls2]
      · rw [hr]; exact hcalls2
    rw [hcalls] at hmem
    simp only [List.mem_append, List.mem_singleton] at hmem
    rcases hmem with (hmem | hmem) | hmem
    · exact absurd rfl (hnotpre _ hmem).1
    · have := hm.1 _ hmem
      simp [Call.err] at this
    · simp at hmem

/-- C8. In a run of `jigMain` that is not in clean mode and in which no
operation returns an error, the exit code is 1 exactly when the diagnostics of
the last `Check` are not empty and 0 otherwise, and what the run prints to
standard output after the messages of verbose mode are those diagnostics, each
once and in the order of `Check`; nothing is printed to standard error. -/
theorem jigMain_exit_code {σ : Type} (ops : Ops σ) (flags : Flags) (fuel : Nat) (s0 : σ)
    (code : Int) (r : Run σ)
    (hrun : jigMain ops flags fuel s0 = some (code, r))
    (hclean : flags.clean = false)
    (hnofatal : ∀ c ∈ r.calls, c.err = none) :
    ∃ errors, lastCheck r.calls = some errors ∧
      (code = 1 ↔ errors ≠ []) ∧
      (code = 0 ↔ errors = []) ∧
      r.stdout = (if flags.verbose then r.calls.flatMap Call.messages else []) ++ errors ∧
      r.stderr = [] := by
  obtain ⟨pext, hpx, hpmem, hpnone, hpsome, -⟩ := prepare_spec ops flags s0
  obtain ⟨hpcalls, -, -⟩ := hpx.calls_init
  rcases jigMain_cases ops flags fuel s0 code r hrun with
    ⟨hpre, hr⟩ | ⟨hpre, hloop⟩ | ⟨hpre, errors, r1, r2, m2, e2, hloop, hx2, hend⟩
  · exfalso
    rcases hpsome code hpre with ⟨-, c, hc, hce⟩ | ⟨-, hcl⟩
    · rw [hr, hpcalls] at hnofatal
      exact hce (hnofatal c hc)
    · rw [hclean] at hcl
      simp at hcl
  · exfalso
    obtain ⟨ext, hx, -, -, hm⟩ := synthesisLoop_spec ops flags.verbose fuel false _ _ hloop
    simp only [LoopEnd.run] at hx hm
    obtain ⟨-, c, hc, hce⟩ := hm
    exact hce (hnofatal c (by rw [hx.1]; exact List.mem_append_right _ hc))
  · obtain ⟨ext, hx, hin, -, hm⟩ := synthesisLoop_spec ops flags.verbose fuel false _ _ hloop
    simp only [LoopEnd.run] at hx hm
    have hall := Extends.trans (Extends.trans hpx hx) hx2
    obtain ⟨hc2, ho2, he2⟩ := hall.calls_init
    have hr : e2 = none ∧ r = { r2 with stdout := r2.stdout ++ errors } ∧
        code = if errors.length > 0 then 1 else 0 := by
      rcases hend with ⟨hne, -, hr⟩ | h
      · exfalso
        apply hne
        have := hnofatal (Call.WriteGeneratedSources m2 e2) (by rw [hr, hc2]; simp)
        simpa [Call.err] using this
      · exact h
    obtain ⟨-, hr, hcode⟩ := hr
    have hcalls : r.calls = pext ++ ext ++ [Call.WriteGeneratedSources m2 e2] := by
      rw [hr]; exact hc2
    refine ⟨errors, ?_, ?_, ?_, ?_, ?_⟩
    · rw [hcalls, lastCheck_append_none _ _ (by simp [Call.isCheck])]
      exact lastCheck_append_some _ _ _ hm.2
    · rw [hcode]
      cases errors <;> simp
    · rw [hcode]
      cases errors <;> simp
    · rw [hcalls, hr]
      simp only []
      rw [ho2]
    · have hnone : ∀ c ∈ pext ++ ext ++ [Call.WriteGeneratedSources m2 e2], c.err = none := by
        rw [← hcalls]; exact hnofatal
      rw [hr]
      simp only []
      rw [he2]
      apply List.eq_nil_iff_forall_not_mem.2
      intro x hx
      obtain ⟨c, hc, hce⟩ := List.mem_filterMap.1 hx
      rw [hnone c hc] at hce
      simp at hce

theorem checks_prepare {σ : Type} (ops : Ops σ) (flags : Flags) (s0 : σ) :
    checks (prepare ops flags s0).2.calls = 0 := by
  obtain ⟨pext, hpx, hpmem, -⟩ := prepare_spec ops flags s0
  rw [hpx.calls_init.1]
  unfold checks
  rw [List.countP_eq_zero]
  intro c hc
  rcases hpmem c hc with ⟨e, h⟩ | ⟨m, e, h⟩ <;> (rw [h]; simp [Call.isCheck])

theorem staleStart_store : staleStart.state.pkg.generated "StackInt" = some "jig.go" := by
  decide

/-- C9, counterexample. The file `jig.go` holds the marker of `StackInt` without
its declaration and a directive of the client code forces the regeneration of
`StackInt`. The first pass of the loop does not converge (`Check` reports
`StackInt` as undefined), does not stall (`GenerateCodeForType` returns a
message) and goes on, and the fragment store after the pass is the one before:
no name was registered. -/
theorem forced_regeneration_registers_no_name :
    HasGeneratedSource staleStart.state.pkg "StackInt" = true ∧
    (loopBody staleOps false false staleStart).goesOn = true ∧
    (loopBody staleOps false false staleStart).run.calls =
      staleStart.calls ++
        [Call.Check ["undefined: StackInt"] none,
         Call.LoadGeneratePragmas ["jig:type StackInt"],
         Call.LoadGenerics [] none,
         Call.GenerateCodeForType "StackInt" ["generating StackInt"] none] ∧
    (loopBody staleOps false false staleStart).run.state.pkg.generated =
      staleStart.state.pkg.generated := by
  refine ⟨by decide, by decide, by decide, ?_⟩
  have h : (loopBody staleOps false false staleStart).run.state.pkg.generated =
      staleStart.state.pkg.generated.set "StackInt" "jig.go" := rfl
  rw [h]
  exact GoMap.set_eq_self _ _ _ staleStart_store

/-- C9, amended. With `GenerateCodeForType` as the spec describes it, operations
that keep the names of the fragment store, and `names` holding the fragment
names of the signatures suggested from the diagnostics of `Check` in the
states a run reaches: a pass through the body of the synthesis loop returns
on an error, converges (`Check` gave no diagnostics), stalls (no
`GenerateCodeForType` call of the pass returned a message), registers a name
of `names` the fragment store did not have, or regenerated a fragment the
store had because a directive forced it. When no directive forces the
regeneration of a fragment the store has, the loop ends within one pass for
each distinct name and a last one, and `jigMain` returns. -/
theorem synthesisLoop_progress (env : Env) (tplr : Specializer) (ops : Ops World)
    (names : List String) (inv : World → Prop)
    (hgen : ops.GenerateCodeForType = GenerateCodeForType env tplr)
    (hkept : StoreKept ops)
    (hinv : Invariant ops inv)
    (hnames : ∀ w, inv w → ∀ w2, ∀ sig ∈ ops.SuggestTypesToGenerate w2 (ops.Check w).1.1,
      tplr.fragmentName sig ∈ names) :
    (∀ v t r, inv r.state →
      match loopBody ops v t r with
      | Pass.returned code _ => code = 1
      | Pass.broke errors _ => errors = []
      | Pass.completed false _ r2 =>
        ∀ sig m e, Call.GenerateCodeForType sig m e ∈ r2.calls.drop r.calls.length → m = []
      | Pass.completed true _ r2 =>
        (∃ n ∈ names, HasGeneratedSource r.state.pkg n = false ∧
          HasGeneratedSource r2.state.pkg n = true) ∨
        (∃ w, inv w ∧ ∃ n ∈ names, w.forced n = true ∧ HasGeneratedSource w.pkg n = true)) ∧
    ((∀ w, inv w → ∀ n ∈ names, HasGeneratedSource w.pkg n = true → w.forced n = false) →
      (∀ v t r, inv r.state →
        ∃ e, synthesisLoop ops v (names.toFinset.card + 1) t r = some e ∧
          checks e.run.calls ≤ checks r.calls + names.toFinset.card + 1) ∧
      (∀ flags s0, inv (prepare ops flags s0).2.state →
        ∃ res, jigMain ops flags (names.toFinset.card + 1) s0 = some res ∧
          checks res.2.calls ≤ names.toFinset.card + 1)) := by
  refine ⟨?_, ?_⟩
  · intro v t r hr
    obtain ⟨errs, cerr, ext, hx, hin, -, hm⟩ := loopBody_spec ops v t r
    cases hb : loopBody ops v t r with
    | returned code r1 =>
      rw [hb] at hm
      exact hm.1
    | broke errors r1 =>
      rw [hb] at hm
      simp only [] at hm ⊢
      rw [hm.1, hm.2.1]
    | completed g errors r1 =>
      cases g with
      | true =>
        exact loopBody_registers env tplr ops names inv hgen hkept hinv hnames v t r hr
          errors r1 hb
      | false =>
        rw [hb] at hm hx
        simp only [Pass.run] at hm hx ⊢
        intro sig m e hmem
        rw [hx.1, List.drop_left] at hmem
        simp only [List.mem_cons] at hmem
        rcases hmem with hmem | hmem
        · simp at hmem
        · exact hm.2.2.2 trivial sig m e hmem
  · intro hunforced
    have hloop : ∀ v t r, inv r.state →
        ∃ e, synthesisLoop ops v (names.toFinset.card + 1) t r = some e ∧
          checks e.run.calls ≤ checks r.calls + names.toFinset.card + 1 := by
      intro v t r hr
      have hle := missingNames_le names r.state
      obtain ⟨e, he, hc⟩ := synthesisLoop_fuel env tplr ops names inv hgen hkept hinv hnames
        hunforced v (names.toFinset.card + 1) t r hr (by omega)
      exact ⟨e, he, by omega⟩
    refine ⟨hloop, ?_⟩
    intro flags s0 hstart
    have hpre := checks_prepare ops flags s0
    unfold jigMain
    simp only [if_true]
    cases hp : (prepare ops flags s0).1 with
    | some code =>
      refine ⟨_, rfl, ?_⟩
      simp only []
      omega
    | none =>
      simp only []
      obtain ⟨e, he, hc⟩ := hloop flags.verbose false (prepare ops flags s0).2 hstart
      rw [he]
      cases e with
      | returned code r1 =>
        refine ⟨_, rfl, ?_⟩
        simp only [LoopEnd.run] at hc ⊢
        omega
      | left errors r1 =>
        simp only [LoopEnd.run] at hc ⊢
        generalize ops.WriteGeneratedSources r1.state = res
        obtain ⟨⟨m, e⟩, s⟩ := res
        simp only []
        obtain ⟨r2, hp2, hx2, -⟩ := call_step flags.verbose r1 s
          (Call.WriteGeneratedSources m e) m e rfl rfl
        rw [hp2]
        simp only []
        have hc2 : checks r2.calls = checks r1.calls := by
          rw [hx2.1]
          unfold checks
          rw [List.countP_append]
          simp [Call.isCheck]
        cases e with
        | some e =>
          refine ⟨_, rfl, ?_⟩
          simp only []
          omega
        | none =>
          simp only [Option.isSome_none, Bool.false_eq_true, if_false]
          by_cases hlen : errors.length > 0
          · simp only [hlen, if_true]
            refine ⟨_, rfl, ?_⟩
            simp only []
            omega
          · simp only [hlen, if_false]
            refine ⟨_, rfl, ?_⟩
            simp only []
            omega

/-! ## Runs of the concrete machine -/

theorem some_getD_of_isSome {α β : Type} (x : Option (α × β)) (d : α × β)
    (h : x.isSome = true) : x = some ((x.getD d).1, (x.getD d).2) := by
  cases x with
  | none => simp at h
  | some y => rfl

theorem exampleOps_diskUntouched (tplr : Specializer) (refs : List String)
    (other : List GoError) : DiskUntouched (exampleOps tplr refs other) World.disk := by
  refine ⟨?_, ?_, ?_, ?_, ?_, ?_, ?_, ?_⟩
  · intro dir s; rfl
  · intro b s; rfl
  · intro s
    simp only [exampleOps]
    split
    · split <;> rfl
    · rfl
  · intro s; rfl
  · intro s; rfl
  · intro s; rfl
  · intro s; rfl
  · intro sig s
    simp only [exampleOps, GenerateCodeForType]
    split
    · rfl
    · split
      · rfl
      · split <;> rfl

theorem exampleOps_storeKept (tplr : Specializer) (refs : List String)
    (other : List GoError) : StoreKept (exampleOps tplr refs other) :=
  ⟨fun _ _ h => h, fun _ _ h => h, fun _ _ h => h, fun _ _ h => h⟩

theorem exampleOps_unforced (tplr : Specializer) (refs : List String) (other : List GoError) :
    Invariant (exampleOps tplr refs other) (fun w => ∀ n, w.forced n = false) := by
  refine ⟨fun _ h => h, fun _ h => h, fun _ h => h, fun _ h => h, ?_⟩
  intro sig w h n
  show (GenerateCodeForType exampleEnv tplr sig w).2.forced n = false
  rw [GenerateCodeForType_forced]
  exact h n

theorem exampleOps_names (w w2 : World) (sig : String)
    (h : sig ∈ (exampleOps exampleLibrary ["StackInt"] []).SuggestTypesToGenerate w2
      ((exampleOps exampleLibrary ["StackInt"] []).Check w).1.1) :
    exampleLibrary.fragmentName sig ∈ ["StackInt"] := by
  have h1 : (([] : List GoError).filterMap undefinedName).dedup = [] := by decide
  have h2 : ((["undefined: StackInt"] : List GoError).filterMap undefinedName).dedup =
      ["StackInt"] := by decide
  simp only [exampleOps] at h
  cases hh : HasGeneratedSource w.pkg "StackInt" with
  | true =>
    simp only [List.filter, hh, Bool.not_true, List.map_nil, List.append_nil] at h
    rw [h1] at h
    simp at h
  | false =>
    simp only [List.filter, hh, Bool.not_false, List.map_cons, List.map_nil,
      List.append_nil] at h
    have h3 : ("undefined: " ++ "StackInt" : String) = "undefined: StackInt" := by decide
    rw [h3, h2] at h
    exact h

/-- Witness of C5 as amended: a run for missing code only on a directory that
holds `jig.go`; the merge of `QueueInt` fails and the disk is as before. -/
theorem jigMain_failed_merge_no_flush_witness :
    (exampleRun exampleLibrary ["StackInt", "QueueInt"] [] missingFlags 5 generatedWorld).1 = 1 ∧
    World.disk (exampleRun exampleLibrary ["StackInt", "QueueInt"] [] missingFlags 5
      generatedWorld).2.state = World.disk generatedWorld :=
  have h := jigMain_failed_merge_no_flush
    (exampleOps exampleLibrary ["StackInt", "QueueInt"] []) World.disk missingFlags 5
    generatedWorld
    (exampleRun exampleLibrary ["StackInt", "QueueInt"] [] missingFlags 5 generatedWorld).1
    (exampleRun exampleLibrary ["StackInt", "QueueInt"] [] missingFlags 5 generatedWorld).2
    (exampleOps_diskUntouched _ _ _)
    (some_getD_of_isSome _ _ (by decide))
    ⟨"QueueInt", [], "unbalanced braces", by decide⟩
  ⟨h.1, h.2.2.1 ⟨rfl, rfl⟩⟩

/-- Witness of C8: a verbose run that generates `StackInt` and is left with a
diagnostic no template resolves. -/
theorem jigMain_exit_code_witness :
    ∃ errors,
      lastCheck (exampleRun exampleLibrary ["StackInt"] ["main.go:9:2: x declared but not used"]
        verboseFlags 5 freshWorld).2.calls = some errors ∧
      ((exampleRun exampleLibrary ["StackInt"] ["main.go:9:2: x declared but not used"]
        verboseFlags 5 freshWorld).1 = 1 ↔ errors ≠ []) ∧
      ((exampleRun exampleLibrary ["StackInt"] ["main.go:9:2: x declared but not used"]
        verboseFlags 5 freshWorld).1 = 0 ↔ errors = []) ∧
      (exampleRun exampleLibrary ["StackInt"] ["main.go:9:2: x declared but not used"]
        verboseFlags 5 freshWorld).2.stdout =
        (if verboseFlags.verbose then
          (exampleRun exampleLibrary ["StackInt"] ["main.go:9:2: x declared but not used"]
            verboseFlags 5 freshWorld).2.calls.flatMap Call.messages
        else []) ++ errors ∧
      (exampleRun exampleLibrary ["StackInt"] ["main.go:9:2: x declared but not used"]
        verboseFlags 5 freshWorld).2.stderr = [] :=
  jigMain_exit_code
    (exampleOps exampleLibrary ["StackInt"] ["main.go:9:2: x declared but not used"])
    verboseFlags 5 freshWorld _ _
    (some_getD_of_isSome _ _ (by decide)) rfl (by decide)

/-- Witness of C9 as amended: the client code references `StackInt` alone, no
directive forces a regeneration, and the run ends within two passes. -/
theorem synthesisLoop_progress_witness :
    ∃ res, jigMain (exampleOps exampleLibrary ["StackInt"] []) defaultFlags
        ((["StackInt"] : List String).toFinset.card + 1) freshWorld = some res ∧
      checks res.2.calls ≤ (["StackInt"] : List String).toFinset.card + 1 :=
  ((synthesisLoop_progress exampleEnv exampleLibrary
    (exampleOps exampleLibrary ["StackInt"] []) ["StackInt"] (fun w => ∀ n, w.forced n = false)
    rfl
    (exampleOps_storeKept _ _ _)
    (exampleOps_unforced _ _ _)
    (fun w _ w2 sig h => exampleOps_names w w2 sig h)).2
      (fun _ hw n _ _ => hw n)).2 defaultFlags freshWorld (fun _ => rfl)

end Jig
